import Mathlib

/-!
# kubic-control: adding nodes to the cluster (`pkg/kubeadm/addNode.go`)

A shallow embedding of `AddNode` and theorems about it.

Conventions of the embedding.

* A Go `string` is a `List Char` (`Str`).  The texts handled here are command
  output and host names; they are taken to be valid UTF-8, so that the byte-wise
  searches of the `strings` package for the ASCII separators `"\n"`, `":"`,
  `","`, `"["` coincide with the character-wise searches below.
* The outside world (configuration file, remote commands, the gRPC stream, the
  clock) is a parameter `World`.  A remote command's result may depend on every
  command issued before it in the same call.
* The package-level variables `joincmd_g` and `token_create_time` are fields of
  the explicit state, next to the log of issued commands (`trace`), the log of
  `stream.Send` calls (`events`) and the counter `failed`.
* The goroutines started by the `for` loop are run to completion one after
  another, in index order.  Each goroutine only reads the captured variables
  and the results of its own commands, so its own command and event sequence
  does not depend on the interleaving; the shared counter `failed` and the
  order of events of different nodes do.
* An index out of range is a Go run-time panic; it is the outcome `panic`.
-/

namespace Kubeadm

/-- Go `string`. -/
abbrev Str := List Char

/-! ## The functions of Go's `strings` package used by `AddNode` -/

/-- Go `strings.Index(s, sep)` for a one-character `sep`: position of the first
occurrence, `-1` when there is none. -/
def Index (s : Str) (sep : Char) : Int :=
  if sep ∈ s then (s.indexOf sep : Nat) else -1

/-- Go `strings.Replace(s, old, new, -1)` for a one-character `old`. -/
def Replace (s : Str) (old : Char) (new : Str) : Str :=
  s.flatMap (fun c => if c = old then new else [c])

/-- Go `strings.Split(s, sep)` for a one-character `sep`: the pieces between
the occurrences of `sep`, always at least one piece. -/
def Split : Str → Char → List Str
  | [], _ => [[]]
  | c :: cs, sep =>
    if c = sep then [] :: Split cs sep
    else
      match Split cs sep with
      | [] => [[c]]
      | piece :: pieces => (c :: piece) :: pieces

/-- Go `strings.HasSuffix(s, suffix)`. -/
def HasSuffix (s suffix : Str) : Bool :=
  suffix.isSuffixOf s

/-- Go `strings.TrimSuffix(s, suffix)`. -/
def TrimSuffix (s suffix : Str) : Str :=
  if HasSuffix s suffix then s.take (s.length - suffix.length) else s

/-- Go `unicode.IsSpace`: the characters with the Unicode White_Space property. -/
def isSpace (c : Char) : Bool :=
  let n := c.toNat
  n = 0x09 || n = 0x0A || n = 0x0B || n = 0x0C || n = 0x0D || n = 0x20 ||
  n = 0x85 || n = 0xA0 || n = 0x1680 || (0x2000 ≤ n && n ≤ 0x200A) ||
  n = 0x2028 || n = 0x2029 || n = 0x202F || n = 0x205F || n = 0x3000

/-- Go `strings.TrimSpace(s)`: `s` without leading and trailing white space. -/
def TrimSpace (s : Str) : Str :=
  ((s.dropWhile isSpace).reverse.dropWhile isSpace).reverse

/-- Simple case folding of a rune to the representative of its orbit, for the
orbits that contain an ASCII letter: `A`-`Z` go to `a`-`z`, the Kelvin sign
U+212A to `k` and the long s U+017F to `s`. Every other rune is left alone. -/
def foldRune (c : Char) : Char :=
  if c.toNat = 0x212A then 'k'
  else if c.toNat = 0x017F then 's'
  else if 'A'.toNat ≤ c.toNat ∧ c.toNat ≤ 'Z'.toNat then Char.ofNat (c.toNat + 32)
  else c

/-- Go `strings.EqualFold(s, t)` when `t` is ASCII (the only use is
`t = "master"`): same number of runes, and rune by rune equal under simple
Unicode case folding. -/
def EqualFold : Str → Str → Bool
  | [], [] => true
  | c :: cs, d :: ds => (foldRune c == foldRune d) && EqualFold cs ds
  | _, _ => false

/-! ## The time package -/

/-- Go `time.Hour` as a `time.Duration`, in nanoseconds. -/
def Hour : Int := 60 * 60 * 1000000000

/-- Go `time.Time.Sub`: the difference of two instants (nanoseconds counted
from the zero `time.Time`), saturated to the range of `time.Duration`. -/
def Sub (t u : Int) : Int :=
  if t - u > 2 ^ 63 - 1 then 2 ^ 63 - 1
  else if t - u < -(2 ^ 63) then -(2 ^ 63)
  else t - u

/-- The test `d.Hours() > 23` on a duration `d`. `Hours` converts to `float64`
as `float64(d / Hour) + float64(d % Hour) / 3.6e12`; the fractional part of a
duration of 23 hours and at least one nanosecond is above `2.7e-13`, far more
than the spacing `2 ^ -48` of `float64` around 23, so the floating-point
comparison holds exactly when `d` exceeds 23 hours as an integer. -/
def olderThan23Hours (d : Int) : Bool :=
  decide (d > 23 * Hour)

/-! ## Data model -/

/-- The message `pb.StatusReply` sent on the stream. -/
structure StatusReply where
  Success : Bool
  Message : Str
deriving DecidableEq

/-- The message `pb.AddNodeRequest`; the field `Type` is written `Type_`. -/
structure AddNodeRequest where
  NodeNames : Str
  Type_ : Str
deriving DecidableEq

/-- A remote command, by the function that issues it: `executeCmdSalt(salt,
command, arg...)` of this package or `tools.ExecuteCmd(command, arg...)`. Both
functions lie outside `addNode.go`; all that is used of them is that they
return a success flag and a text. -/
inductive Call where
  | executeCmdSalt (salt : Str) (command : Str) (arg : List Str)
  | ExecuteCmd (command : Str) (arg : List Str)
deriving DecidableEq

/-- One issued command with what it returned. -/
structure Entry where
  call : Call
  success : Bool
  output : Str
deriving DecidableEq

/-- The environment of one `AddNode` call. -/
structure World where
  /-- The function `Read_Cfg(file, key)`. -/
  Read_Cfg : Str → Str → Str
  /-- The result of a command, given the commands issued so far. -/
  run : List Entry → Call → Bool × Str
  /-- Whether `stream.Send` returns an error, given the messages sent so far. -/
  sendFails : List StatusReply → StatusReply → Bool
  /-- The instant read by `time.Since` at line 41. -/
  sinceNow : Int
  /-- The instant read by `time.Now()` at line 58. -/
  now : Int

/-- The package-level variables, and the observable effects of the call so far. -/
structure State where
  joincmd_g : Str
  token_create_time : Int
  trace : List Entry
  events : List StatusReply
  failed : Nat

/-- Where control is after a part of `AddNode`: it goes on with a value, or
`AddNode` has returned (with a non-nil error when `err`), or it has panicked. -/
inductive Flow (α : Type) where
  | next (a : α) (s : State)
  | ret (err : Bool) (s : State)
  | panic (s : State)

/-- How a call of `AddNode` ends. -/
inductive Outcome where
  | returned (err : Bool)
  | panicked
deriving DecidableEq

/-- The end of a call of `AddNode`. -/
structure Result where
  outcome : Outcome
  state : State

/-! ## Effects -/

/-- Issue a remote command: ask the world, log the command and its result. -/
def exec (w : World) (s : State) (c : Call) : Bool × Str × State :=
  ((w.run s.trace c).1, (w.run s.trace c).2,
    { s with trace := s.trace ++ [⟨c, (w.run s.trace c).1, (w.run s.trace c).2⟩] })

/-- The call `stream.Send(m)`: the message is logged, the flag tells whether
`Send` returned an error. -/
def Send (w : World) (s : State) (m : StatusReply) : Bool × State :=
  (w.sendFails s.events m, { s with events := s.events ++ [m] })

/-- The first argument of every `salt` invocation. -/
def directCall : Str := "--module-executors='direct_call'".toList

/-! ## `AddNode`, lines 32-111: join command, certificates, node list -/

/-- The command `executeCmdSalt(master_salt, "kubeadm", "token", "create",
"--print-join-command")` of line 45. -/
def tokenCreate (master_salt : Str) : Call :=
  .executeCmdSalt master_salt "kubeadm".toList
    ["token".toList, "create".toList, "--print-join-command".toList]

/-- The command of line 72, `kubeadm init phase upload-certs --upload-certs`. -/
def uploadCertsCall (master_salt : Str) : Call :=
  .executeCmdSalt master_salt "kubeadm".toList
    ["init".toList, "phase".toList, "upload-certs".toList, "--upload-certs".toList]

/-- Lines 52-57: the join command cached from the output of the token command. -/
def parseToken (master_salt token : Str) : Str :=
  let token :=
    if master_salt.length > 0 then
      let token := Replace token '\n' []
      let i := Index token ':' + 1
      TrimSpace (token.drop i.toNat)
    else token
  TrimSuffix token "\n".toList

/-- Lines 40-59: refresh the cached join command when it is older than 23 hours. -/
def refreshToken (w : World) (master_salt : Str) (s : State) : Flow Unit :=
  if olderThan23Hours (Sub w.sinceNow s.token_create_time) then
    match exec w (Send w s ⟨true, "Generate new token ...".toList⟩).2 (tokenCreate master_salt) with
    | (false, token, s) =>
      match Send w s ⟨false, token⟩ with
      | (err, s) => .ret err s
    | (true, token, s) =>
      .next () { s with joincmd_g := parseToken master_salt token, token_create_time := w.now }
  else .next () s

/-- Line 80: the lines of the upload-certs output without its colons. -/
def certKeyLines (lines : Str) : List Str :=
  Split (Replace lines ':' []) '\n'

/-- Lines 61-83: the join command for this request and the load balancer to
register with (`haproxy_salt`). For a master the certificates are uploaded and
the key, `cert_key[2]`, is appended; indexing panics when there is no such line. -/
def uploadCerts (w : World) (master_salt nodeType : Str) (s : State) : Flow (Str × Str) :=
  let joincmd := s.joincmd_g
  if EqualFold nodeType "master".toList then
    let joincmd := joincmd ++ " --control-plane".toList
    match exec w (Send w s ⟨true, "Upload certificates ...".toList⟩).2 (uploadCertsCall master_salt) with
    | (false, lines, s) =>
      match Send w s ⟨false, lines⟩ with
      | (err, s) => .ret err s
    | (true, lines, s) =>
      match (certKeyLines lines)[2]? with
      | none => .panic s
      | some key =>
        .next (joincmd ++ " --certificate-key ".toList ++ TrimSuffix key "\n".toList,
          w.Read_Cfg "control-plane.conf".toList "loadbalancer_salt".toList) s
  else .next (joincmd, []) s

/-- Lines 90-97: the `test.ping` command, with `-L` for `name1,name2` and
without for `name[1,2]`. -/
def pingCall (nodeNames : Str) : Call :=
  if Index nodeNames ',' ≥ 0 && Index nodeNames '[' == -1 then
    .ExecuteCmd "salt".toList
      [directCall, "--out=txt".toList, "-L".toList, nodeNames, "test.ping".toList]
  else
    .ExecuteCmd "salt".toList
      [directCall, "--out=txt".toList, nodeNames, "test.ping".toList]

/-- Lines 105-111: the names of the minions whose line ends with `": True"`.
`list[0]` exists because `Split` returns at least one piece. -/
def parseNodelist (message : Str) : List Str :=
  (Split message '\n').foldl
    (fun nodelist entry =>
      if HasSuffix entry ": True".toList then nodelist ++ [(Split entry ':').headD []]
      else nodelist)
    []

/-- Lines 85-111: ping the nodes and keep those that answer. -/
def pingNodes (w : World) (nodeNames : Str) (s : State) : Flow (List Str) :=
  match exec w s (pingCall nodeNames) with
  | (false, message, s) =>
    match Send w s ⟨false, message⟩ with
    | (err, s) => .ret err s
  | (true, message, s) => .next (parseNodelist message) s

/-- What the goroutines capture: the node list, the join command, the node
type and the load balancer. -/
structure Plan where
  nodelist : List Str
  joincmd : Str
  nodeType : Str
  haproxy_salt : Str
deriving DecidableEq

/-- Line 38: the value of `master_salt`. -/
def master_salt (w : World) : Str :=
  w.Read_Cfg "control-plane.conf".toList "master".toList

/-- Lines 32-111 of `AddNode`: everything before the goroutines are started. -/
def prepare (w : World) (req : AddNodeRequest) (s : State) : Flow Plan :=
  let nodeNames := req.NodeNames
  let nodeType := req.Type_
  let master_salt := master_salt w
  match refreshToken w master_salt s with
  | .ret err s => .ret err s
  | .panic s => .panic s
  | .next () s =>
    let nodeType := if nodeType.length = 0 then "worker".toList else nodeType
    match uploadCerts w master_salt nodeType s with
    | .ret err s => .ret err s
    | .panic s => .panic s
    | .next (joincmd, haproxy_salt) s =>
      match pingNodes w nodeNames s with
      | .ret err s => .ret err s
      | .panic s => .panic s
      | .next nodelist s => .next ⟨nodelist, joincmd, nodeType, haproxy_salt⟩ s

/-! ## `AddNode`, lines 113-208: one goroutine per node -/

/-- Step 1, line 124. -/
def startCrio (node : Str) : Call :=
  .ExecuteCmd "salt".toList [directCall, node, "service.start".toList, "crio".toList]

/-- Step 2, line 132. -/
def enableCrio (node : Str) : Call :=
  .ExecuteCmd "salt".toList [directCall, node, "service.enable".toList, "crio".toList]

/-- Step 3, line 140. -/
def startKubelet (node : Str) : Call :=
  .ExecuteCmd "salt".toList [directCall, node, "service.start".toList, "kubelet".toList]

/-- Step 4, line 148. -/
def enableKubelet (node : Str) : Call :=
  .ExecuteCmd "salt".toList [directCall, node, "service.enable".toList, "kubelet".toList]

/-- Step 5, line 159: the join command, between double quotes. -/
def runJoin (node joincmd : Str) : Call :=
  .ExecuteCmd "salt".toList
    [directCall, node, "cmd.run".toList, "\"".toList ++ joincmd ++ "\"".toList]

/-- Step 6, line 167. -/
def appendGrain (node nodeType : Str) : Call :=
  .ExecuteCmd "salt".toList
    [directCall, node, "grains.append".toList, "kubicd".toList,
      "kubic-".toList ++ nodeType ++ "-node".toList]

/-- The shell command of line 176. -/
def rebootMethodScript : Str :=
  ("if [ -f /etc/transactional-update.conf ]; then grep -q ^REBOOT_METHOD= " ++
   "/etc/transactional-update.conf && sed -i -e 's|REBOOT_METHOD=.*|REBOOT_METHOD=kured|g' " ++
   "/etc/transactional-update.conf || echo REBOOT_METHOD=kured >> " ++
   "/etc/transactional-update.conf ; else echo REBOOT_METHOD=kured > " ++
   "/etc/transactional-update.conf ; fi").toList

/-- Step 7, line 176. -/
def setRebootMethod (node : Str) : Call :=
  .ExecuteCmd "salt".toList [directCall, node, "cmd.run".toList, rebootMethodScript]

/-- Step 8, line 188: run on the load balancer, naming the node. -/
def haproxyAdd (haproxy_salt node : Str) : Call :=
  .ExecuteCmd "salt".toList
    [directCall, haproxy_salt, "cmd.run".toList, "haproxycfg server add ".toList ++ node]

/-- The failure branch of every step: send `"<node>: <message>"` (an error of
`Send` is only logged), count the failure, leave the goroutine. -/
def stepFailed (w : World) (s : State) (node message : Str) : State :=
  { (Send w s ⟨false, node ++ ": ".toList ++ message⟩).2 with
    failed := (Send w s ⟨false, node ++ ": ".toList ++ message⟩).2.failed + 1 }

/-- Lines 119-198: the goroutine of node `nodelist[i]`. -/
def goroutine (w : World) (p : Plan) (node : Str) (s : State) : State :=
  let s := (Send w s ⟨true, node ++ ": adding node...".toList⟩).2
  match exec w s (startCrio node) with
  | (false, message, s) => stepFailed w s node message
  | (true, _, s) =>
  match exec w s (enableCrio node) with
  | (false, message, s) => stepFailed w s node message
  | (true, _, s) =>
  match exec w s (startKubelet node) with
  | (false, message, s) => stepFailed w s node message
  | (true, _, s) =>
  match exec w s (enableKubelet node) with
  | (false, message, s) => stepFailed w s node message
  | (true, _, s) =>
  let s := (Send w s ⟨true, node ++ ": joining cluster...".toList⟩).2
  match exec w s (runJoin node p.joincmd) with
  | (false, message, s) => stepFailed w s node message
  | (true, _, s) =>
  match exec w s (appendGrain node p.nodeType) with
  | (false, message, s) => stepFailed w s node message
  | (true, _, s) =>
  match exec w s (setRebootMethod node) with
  | (false, message, s) => stepFailed w s node message
  | (true, _, s) =>
  if p.haproxy_salt.length > 0 then
    let s := (Send w s ⟨true, node ++ ": adding node to haproxy loadbalancer...".toList⟩).2
    match exec w s (haproxyAdd p.haproxy_salt node) with
    | (false, message, s) => stepFailed w s node message
    | (true, _, s) => (Send w s ⟨true, node ++ ": node successful added".toList⟩).2
  else (Send w s ⟨true, node ++ ": node successful added".toList⟩).2

/-- Lines 113-201: the loop that starts the goroutines and `wg.Wait()`, the
goroutines run one after another. -/
def fanOut (w : World) (p : Plan) (s : State) : State :=
  p.nodelist.foldl (fun s node => goroutine w p node s) s

/-- The message of line 203. -/
def globalError : StatusReply :=
  ⟨false, "An error occured during adding Node(s)".toList⟩

/-- Lines 202-207: the final event when a node failed. -/
def finish (w : World) (s : State) : Result :=
  if s.failed > 0 then
    match Send w s globalError with
    | (err, s) => ⟨.returned err, s⟩
  else ⟨.returned false, s⟩

/-- The state in which a call of `AddNode` starts: the package variables as
earlier calls left them, nothing issued or sent, `failed := 0`. -/
def start (joincmd_g : Str) (token_create_time : Int) : State :=
  ⟨joincmd_g, token_create_time, [], [], 0⟩

/-- The function `AddNode(in, stream)`. -/
def AddNode (w : World) (req : AddNodeRequest) (joincmd_g : Str) (token_create_time : Int) :
    Result :=
  match prepare w req (start joincmd_g token_create_time) with
  | .ret err s => ⟨.returned err, s⟩
  | .panic s => ⟨.panicked, s⟩
  | .next p s => finish w (fanOut w p s)

/-! ## Definitions used to state the theorems -/

/-- The remote commands of the goroutine of `node`, in program order; the
eighth is there when a load balancer is known. -/
def stepCalls (p : Plan) (node : Str) : List Call :=
  [startCrio node, enableCrio node, startKubelet node, enableKubelet node,
   runJoin node p.joincmd, appendGrain node p.nodeType, setRebootMethod node] ++
  (if p.haproxy_salt.length > 0 then [haproxyAdd p.haproxy_salt node] else [])

/-- The commands of a goroutine in order, each with the text of the notice sent just before it. -/
def script (p : Plan) (node : Str) : List (Option Str × Call) :=
  [(some (node ++ ": adding node...".toList), startCrio node),
   (none, enableCrio node),
   (none, startKubelet node),
   (none, enableKubelet node),
   (some (node ++ ": joining cluster...".toList), runJoin node p.joincmd),
   (none, appendGrain node p.nodeType),
   (none, setRebootMethod node)] ++
  (if p.haproxy_salt.length > 0 then
    [(some (node ++ ": adding node to haproxy loadbalancer...".toList),
      haproxyAdd p.haproxy_salt node)]
   else [])

/-- Run a list of steps in order and stop at the first command that fails. -/
def runSteps (w : World) (node : Str) : List (Option Str × Call) → State → Bool × State
  | [], s => (true, s)
  | (notice, c) :: rest, s =>
    match exec w (match notice with | some m => (Send w s ⟨true, m⟩).2 | none => s) c with
    | (false, message, s) => (false, stepFailed w s node message)
    | (true, _, s) => runSteps w node rest s

/-- What the world answers when the commands `cs` are issued one after another
from the history `h`, whatever the answers are. -/
def replay (w : World) : List Entry → List Call → List Entry
  | _, [] => []
  | h, c :: cs =>
    ⟨c, (w.run h c).1, (w.run h c).2⟩ ::
      replay w (h ++ [⟨c, (w.run h c).1, (w.run h c).2⟩]) cs

/-- The entries logged when the commands `cs` are issued one after another from
the history `h` and the first failure ends the sequence. -/
def issued (w : World) : List Entry → List Call → List Entry
  | _, [] => []
  | h, c :: cs =>
    if (w.run h c).1 then
      ⟨c, true, (w.run h c).2⟩ :: issued w (h ++ [⟨c, true, (w.run h c).2⟩]) cs
    else [⟨c, false, (w.run h c).2⟩]

/-- The failure events of a node, one for each failed command of its log. -/
def failureEvents (node : Str) (seg : List Entry) : List StatusReply :=
  (seg.filter (fun e => !e.success)).map (fun e => ⟨false, node ++ ": ".toList ++ e.output⟩)

/-- The log of one node: a non-empty initial part of its steps, in program
order, in which only the last command can have failed, and which has every
step when none failed. -/
def NodeLog (p : Plan) (node : Str) (seg : List Entry) : Prop :=
  seg ≠ [] ∧ seg.map Entry.call <+: stepCalls p node ∧
  (∀ pre e, seg = pre ++ [e] → ∀ x ∈ pre, x.success = true) ∧
  (seg.all (fun e => e.success) = true → seg.map Entry.call = stepCalls p node)

/-- The token part did not end the call: the cached command was fresh and
nothing happened, or it was refreshed. -/
def TokenLeaves (w : World) (s s1 : State) : Prop :=
  (olderThan23Hours (Sub w.sinceNow s.token_create_time) = false ∧ s1 = s) ∨
  (olderThan23Hours (Sub w.sinceNow s.token_create_time) = true ∧
    ∃ out, w.run s.trace (tokenCreate (master_salt w)) = (true, out) ∧
      s1 = { joincmd_g := parseToken (master_salt w) out,
             token_create_time := w.now,
             trace := s.trace ++ [⟨tokenCreate (master_salt w), true, out⟩],
             events := s.events ++ [⟨true, "Generate new token ...".toList⟩],
             failed := s.failed })

/-- The upload part did not end the call: the request is for a worker and
nothing happened, or the certificates were uploaded and the key was found. -/
def UploadLeaves (w : World) (req : AddNodeRequest) (s1 s2 : State)
    (joincmd haproxy_salt : Str) : Prop :=
  (EqualFold req.Type_ "master".toList = false ∧ s2 = s1 ∧
    joincmd = s1.joincmd_g ∧ haproxy_salt = []) ∨
  (EqualFold req.Type_ "master".toList = true ∧
    ∃ out key, w.run s1.trace (uploadCertsCall (master_salt w)) = (true, out) ∧
      (certKeyLines out)[2]? = some key ∧
      s2 = { s1 with
        trace := s1.trace ++ [⟨uploadCertsCall (master_salt w), true, out⟩],
        events := s1.events ++ [⟨true, "Upload certificates ...".toList⟩] } ∧
      joincmd = s1.joincmd_g ++ " --control-plane".toList ++
        " --certificate-key ".toList ++ TrimSuffix key "\n".toList ∧
      haproxy_salt = w.Read_Cfg "control-plane.conf".toList "loadbalancer_salt".toList)

/-- How lines 85-111 end from the state `s2`: the ping fails, or it gives the
node list. -/
def PingEnds (w : World) (req : AddNodeRequest) (s2 : State) (joincmd haproxy_salt : Str)
    (f : Flow Plan) : Prop :=
  (∃ out err, w.run s2.trace (pingCall req.NodeNames) = (false, out) ∧
    f = .ret err
      { s2 with
        trace := s2.trace ++ [⟨pingCall req.NodeNames, false, out⟩],
        events := s2.events ++ [⟨false, out⟩] }) ∨
  (∃ out, w.run s2.trace (pingCall req.NodeNames) = (true, out) ∧
    f = .next
      ⟨parseNodelist out, joincmd,
        if req.Type_.length = 0 then "worker".toList else req.Type_, haproxy_salt⟩
      { s2 with trace := s2.trace ++ [⟨pingCall req.NodeNames, true, out⟩] })

/-- How lines 61-111 end from the state `s1`: the upload fails, or the key is
missing, or the upload part leaves `s2` and the ping ends the preparation. -/
def UploadEnds (w : World) (req : AddNodeRequest) (s1 : State) (f : Flow Plan) : Prop :=
  (EqualFold req.Type_ "master".toList = true ∧
    ∃ out err, w.run s1.trace (uploadCertsCall (master_salt w)) = (false, out) ∧
      f = .ret err
        { s1 with
          trace := s1.trace ++ [⟨uploadCertsCall (master_salt w), false, out⟩],
          events := s1.events ++
            [⟨true, "Upload certificates ...".toList⟩, ⟨false, out⟩] }) ∨
  (EqualFold req.Type_ "master".toList = true ∧
    ∃ out, w.run s1.trace (uploadCertsCall (master_salt w)) = (true, out) ∧
      (certKeyLines out)[2]? = none ∧
      f = .panic
        { s1 with
          trace := s1.trace ++ [⟨uploadCertsCall (master_salt w), true, out⟩],
          events := s1.events ++ [⟨true, "Upload certificates ...".toList⟩] }) ∨
  ∃ (s2 : State) (joincmd haproxy_salt : Str),
    UploadLeaves w req s1 s2 joincmd haproxy_salt ∧ PingEnds w req s2 joincmd haproxy_salt f

/-- How lines 32-111 end from the state `s`: the token command fails, or
the token part leaves `s1` and the rest ends the preparation. -/
def PrepareEnds (w : World) (req : AddNodeRequest) (s : State) (f : Flow Plan) : Prop :=
  (olderThan23Hours (Sub w.sinceNow s.token_create_time) = true ∧
    ∃ out err, w.run s.trace (tokenCreate (master_salt w)) = (false, out) ∧
      f = .ret err
        { s with
          trace := s.trace ++ [⟨tokenCreate (master_salt w), false, out⟩],
          events := s.events ++ [⟨true, "Generate new token ...".toList⟩, ⟨false, out⟩] }) ∨
  ∃ s1 : State, TokenLeaves w s s1 ∧ UploadEnds w req s1 f

/-- The world of the examples: `master` is configured as `admin`, the load
balancer as `lb`; the token command answers as `salt` does, the upload prints
the key on its third line, the nodes `n1` and `n2` answer the ping, and
starting the kubelet fails on `n2`. -/
def exampleWorld (sinceNow : Int) : World where
  Read_Cfg := fun _ key => if key = "master".toList then "admin".toList else "lb".toList
  run := fun _ c =>
    if c = tokenCreate "admin".toList then
      (true, "admin:\n    kubeadm join 1.2.3.4:6443 --token x \n".toList)
    else if c = uploadCertsCall "admin".toList then (true, "l0:\nl1\nKEY\n".toList)
    else if c = pingCall "n1,n2".toList then (true, "n1: True\nn2: True\nn3: False\n".toList)
    else if c = startKubelet "n2".toList then (false, "boom".toList)
    else (true, [])
  sendFails := fun _ _ => false
  sinceNow := sinceNow
  now := sinceNow

/-- The world of the second example: no `master` is configured, so the token
command runs directly and prints what `kubeadm` prints, the join command
followed by a blank and a line break. -/
def directWorld : World where
  Read_Cfg := fun _ _ => []
  run := fun _ c =>
    if c = tokenCreate [] then (true, "kubeadm join 1.2.3.4:6443 --token x \n".toList)
    else (true, [])
  sendFails := fun _ _ => false
  sinceNow := 24 * Hour
  now := 24 * Hour

/-! ## Lemmas -/

/-! ### Facts about the string functions -/

theorem Split_ne_nil (s : Str) (sep : Char) : Split s sep ≠ [] := by
  cases s with
  | nil => simp [Split]
  | cons c cs =>
    unfold Split
    split
    · simp
    · split <;> simp

theorem Split_headD (s : Str) (sep : Char) :
    (Split s sep).headD [] = s.takeWhile (fun c => c != sep) := by
  induction s with
  | nil => simp [Split]
  | cons c cs ih =>
    unfold Split
    by_cases h : c = sep
    · simp [h]
    · simp only [h, if_false]
      have hne : (c != sep) = true := by simpa using h
      rw [List.takeWhile_cons, hne, if_pos rfl, ← ih]
      cases Split cs sep <;> simp

theorem not_mem_of_mem_Split (s : Str) (sep : Char) :
    ∀ piece ∈ Split s sep, sep ∉ piece := by
  induction s with
  | nil => simp [Split]
  | cons c cs ih =>
    unfold Split
    by_cases h : c = sep
    · simp only [h, if_true]
      intro piece hp
      rcases List.mem_cons.1 hp with rfl | hp
      · simp
      · exact ih piece hp
    · simp only [h, if_false]
      cases hs : Split cs sep with
      | nil => exact absurd hs (Split_ne_nil cs sep)
      | cons piece pieces =>
        rw [hs] at ih
        intro q hq
        rcases List.mem_cons.1 hq with rfl | hq
        · intro hmem
          rcases List.mem_cons.1 hmem with heq | hmem
          · exact h heq.symm
          · exact ih piece (List.mem_cons_self _ _) hmem
        · exact ih q (List.mem_cons_of_mem _ hq)

theorem HasSuffix_iff (s suffix : Str) :
    HasSuffix s suffix = true ↔ ∃ t, s = t ++ suffix := by
  unfold HasSuffix
  rw [List.isSuffixOf_iff_suffix]
  constructor
  · rintro ⟨t, ht⟩
    exact ⟨t, ht.symm⟩
  · rintro ⟨t, ht⟩
    exact ⟨t, ht.symm⟩

theorem takeWhile_append_of_not_mem (t rest : Str) (sep : Char) (h : sep ∉ t) :
    (t ++ sep :: rest).takeWhile (fun c => c != sep) = t := by
  induction t with
  | nil => simp
  | cons c t ih =>
    have hc : c ≠ sep := fun heq => h (heq ▸ List.mem_cons_self _ _)
    have hne : (c != sep) = true := by simpa using hc
    rw [List.cons_append, List.takeWhile_cons, hne, if_pos rfl,
      ih (fun hm => h (List.mem_cons_of_mem _ hm))]

theorem parseNodelist_eq (message : Str) :
    parseNodelist message =
      ((Split message '\n').filter (fun entry => HasSuffix entry ": True".toList)).map
        (fun entry => entry.takeWhile (fun c => c != ':')) := by
  unfold parseNodelist
  suffices h : ∀ (l : List Str) (acc : List Str),
      l.foldl (fun nodelist entry =>
        if HasSuffix entry ": True".toList then nodelist ++ [(Split entry ':').headD []]
        else nodelist) acc =
      acc ++ (l.filter (fun entry => HasSuffix entry ": True".toList)).map
        (fun entry => entry.takeWhile (fun c => c != ':')) by
    simpa using h (Split message '\n') []
  intro l
  induction l with
  | nil => simp
  | cons entry l ih =>
    intro acc
    rw [List.foldl_cons, ih, List.filter_cons]
    by_cases h : HasSuffix entry ": True".toList = true
    · simp only [h, if_true, List.map_cons, Split_headD, List.append_assoc,
        List.singleton_append]
    · simp only [h, if_false, Bool.false_eq_true]

theorem Replace_nil_eq_filter (s : Str) (old : Char) :
    Replace s old [] = s.filter (fun c => c != old) := by
  induction s with
  | nil => rfl
  | cons c cs ih =>
    unfold Replace at ih ⊢
    rw [List.flatMap_cons, ih, List.filter_cons]
    by_cases h : c = old
    · simp [h]
    · simp [h]

theorem not_mem_Replace_nil (s : Str) (old : Char) : old ∉ Replace s old [] := by
  rw [Replace_nil_eq_filter]
  simp [List.mem_filter]

theorem Replace_append (s t : Str) (old : Char) (new : Str) :
    Replace (s ++ t) old new = Replace s old new ++ Replace t old new := by
  simp [Replace, List.flatMap_append]

theorem Replace_of_not_mem (s : Str) (old : Char) (new : Str) (h : old ∉ s) :
    Replace s old new = s := by
  induction s with
  | nil => rfl
  | cons c cs ih =>
    have hc : c ≠ old := fun heq => h (heq ▸ List.mem_cons_self _ _)
    have := ih (fun hm => h (List.mem_cons_of_mem _ hm))
    unfold Replace at this ⊢
    rw [List.flatMap_cons, this]
    simp [hc]

theorem Index_append_of_not_mem (t rest : Str) (sep : Char) (h : sep ∉ t) :
    Index (t ++ sep :: rest) sep = t.length := by
  unfold Index
  rw [if_pos (by simp)]
  congr 1
  induction t with
  | nil => simp [List.indexOf_cons_self]
  | cons c t ih =>
    have hc : c ≠ sep := fun heq => h (heq ▸ List.mem_cons_self _ _)
    rw [List.cons_append, List.indexOf_cons_ne _ hc, ih (fun hm => h (List.mem_cons_of_mem _ hm))]
    rfl

theorem TrimSpace_head (s : Str) (c : Char) (h : (TrimSpace s).head? = some c) :
    isSpace c = false := by
  unfold TrimSpace at h
  rw [List.head?_reverse] at h
  obtain ⟨pre, hpre⟩ := List.dropWhile_suffix isSpace (l := (s.dropWhile isSpace).reverse)
  have hl : ((s.dropWhile isSpace).reverse).getLast? = some c := by
    rw [← hpre]
    rw [List.getLast?_append, h]
    rfl
  rw [List.getLast?_reverse] at hl
  have := List.head?_dropWhile_not isSpace s
  rw [hl] at this
  simpa using this

theorem TrimSpace_getLast (s : Str) (c : Char) (h : (TrimSpace s).getLast? = some c) :
    isSpace c = false := by
  unfold TrimSpace at h
  rw [List.getLast?_reverse] at h
  have := List.head?_dropWhile_not isSpace (s.dropWhile isSpace).reverse
  rw [h] at this
  simpa using this

theorem TrimSpace_subset (s : Str) : ∀ c ∈ TrimSpace s, c ∈ s := by
  intro c hc
  unfold TrimSpace at hc
  rw [List.mem_reverse] at hc
  have h1 := (List.dropWhile_suffix isSpace (l := (s.dropWhile isSpace).reverse)).subset hc
  rw [List.mem_reverse] at h1
  exact (List.dropWhile_suffix isSpace (l := s)).subset h1

theorem TrimSuffix_newline_of_trimmed (s : Str) (h : ∀ c, s.getLast? = some c → isSpace c = false) :
    TrimSuffix s "\n".toList = s := by
  unfold TrimSuffix
  split
  · rename_i hs
    obtain ⟨t, rfl⟩ := (HasSuffix_iff _ _).1 hs
    have := h '\n' (by simp)
    exact absurd this (by decide)
  · rfl

/-! ### The goroutine as a list of steps -/

theorem script_calls (p : Plan) (node : Str) :
    (script p node).map Prod.snd = stepCalls p node := by
  unfold script stepCalls
  split <;> simp

theorem goroutine_eq_runSteps (w : World) (p : Plan) (node : Str) (s : State) :
    goroutine w p node s =
      match runSteps w node (script p node) s with
      | (true, s) => (Send w s ⟨true, node ++ ": node successful added".toList⟩).2
      | (false, s) => s := by
  unfold goroutine script
  by_cases h : p.haproxy_salt.length > 0
  · simp only [h, if_true, List.cons_append, List.nil_append, runSteps]
    repeat (first | rfl | split)
  · simp only [h, if_false, List.append_nil, runSteps]
    repeat (first | rfl | split)

/-- What a run of steps leaves behind. -/
theorem runSteps_spec (w : World) (node : Str) (sc : List (Option Str × Call))
    (s : State) :
    (runSteps w node sc s).2.trace = s.trace ++ issued w s.trace (sc.map Prod.snd) ∧
    (runSteps w node sc s).1 = (issued w s.trace (sc.map Prod.snd)).all (fun e => e.success) ∧
    (runSteps w node sc s).2.failed =
      s.failed + (if (runSteps w node sc s).1 then 0 else 1) ∧
    (runSteps w node sc s).2.joincmd_g = s.joincmd_g ∧
    (runSteps w node sc s).2.token_create_time = s.token_create_time ∧
    ∃ evs, (runSteps w node sc s).2.events = s.events ++ evs ∧
      (∀ e ∈ evs, e.Success = true → some e.Message ∈ sc.map Prod.fst) ∧
      evs.filter (fun e => !e.Success) =
        failureEvents node (issued w s.trace (sc.map Prod.snd)) := by
  induction sc generalizing s with
  | nil => simp [runSteps, issued, failureEvents]
  | cons step rest ih =>
    obtain ⟨notice, c⟩ := step
    cases notice with
    | none =>
      cases hr : (w.run s.trace c).1 with
      | false =>
        simp only [runSteps, exec, hr, issued, List.map_cons, stepFailed, Send]
        refine ⟨by simp, by simp, by simp, trivial, trivial,
          [⟨false, node ++ ": ".toList ++ (w.run s.trace c).2⟩], by simp, ?_, ?_⟩
        · intro e he hs
          rw [List.mem_singleton] at he
          subst he
          exact absurd hs Bool.false_ne_true
        · simp [failureEvents]
      | true =>
        simp only [runSteps, exec, hr, issued, List.map_cons, if_true]
        obtain ⟨h1, h2, h3, h4, h5, evs, h6, h7, h8⟩ := ih
          { s with trace := s.trace ++ [⟨c, true, (w.run s.trace c).2⟩] }
        refine ⟨by rw [h1]; simp, by rw [h2]; simp, by rw [h3], by rw [h4], by rw [h5],
          evs, by rw [h6], ?_, ?_⟩
        · intro e he hs
          exact List.mem_cons_of_mem _ (h7 e he hs)
        · rw [h8]; simp [failureEvents]
    | some m =>
      cases hr : (w.run s.trace c).1 with
      | false =>
        simp only [runSteps, exec, hr, issued, List.map_cons, stepFailed, Send]
        refine ⟨by simp, by simp, by simp, trivial, trivial,
          [⟨true, m⟩, ⟨false, node ++ ": ".toList ++ (w.run s.trace c).2⟩], by simp, ?_, ?_⟩
        · intro e he hs
          simp only [List.mem_cons, List.mem_singleton, List.not_mem_nil, or_false] at he
          rcases he with rfl | rfl
          · exact List.mem_cons_self _ _
          · exact absurd hs Bool.false_ne_true
        · simp [failureEvents, List.filter_cons]
      | true =>
        simp only [runSteps, exec, hr, issued, List.map_cons, if_true, Send]
        obtain ⟨h1, h2, h3, h4, h5, evs, h6, h7, h8⟩ := ih
          { s with trace := s.trace ++ [⟨c, true, (w.run s.trace c).2⟩],
                   events := s.events ++ [⟨true, m⟩] }
        refine ⟨by rw [h1]; simp, by rw [h2]; simp, by rw [h3], by rw [h4], by rw [h5],
          ⟨true, m⟩ :: evs, by rw [h6]; simp, ?_, ?_⟩
        · intro e he hs
          rcases List.mem_cons.1 he with rfl | he
          · exact List.mem_cons_self _ _
          · exact List.mem_cons_of_mem _ (h7 e he hs)
        · rw [List.filter_cons, h8]
          simp [failureEvents]

/-! ### Logs of a fail-fast sequence -/

theorem issued_calls (w : World) (h : List Entry) (cs : List Call) :
    (issued w h cs).map Entry.call <+: cs := by
  induction cs generalizing h with
  | nil => simp [issued]
  | cons c cs ih =>
    unfold issued
    split
    · simpa using (List.prefix_cons_inj c).2 (ih _)
    · simp [List.prefix_iff_eq_append]

theorem issued_ne_nil (w : World) (h : List Entry) (c : Call) (cs : List Call) :
    issued w h (c :: cs) ≠ [] := by
  unfold issued
  split <;> simp

theorem issued_init (w : World) (h : List Entry) (cs : List Call) (pre : List Entry)
    (e : Entry) (hseg : issued w h cs = pre ++ [e]) : ∀ x ∈ pre, x.success = true := by
  induction cs generalizing h pre with
  | nil => simp [issued] at hseg
  | cons c cs ih =>
    unfold issued at hseg
    split at hseg
    · cases pre with
      | nil =>
        intro x hx
        cases hx
      | cons y pre =>
        simp only [List.cons_append, List.cons.injEq] at hseg
        intro x hx
        rcases List.mem_cons.1 hx with rfl | hx
        · rw [← hseg.1]
        · exact ih _ pre hseg.2 x hx
    · cases pre with
      | nil =>
        intro x hx
        cases hx
      | cons y pre =>
        simp only [List.cons_append, List.cons.injEq] at hseg
        have := hseg.2
        cases pre <;> simp at this

theorem issued_length (w : World) (h : List Entry) (cs : List Call)
    (hall : (issued w h cs).all (fun e => e.success) = true) :
    (issued w h cs).length = cs.length := by
  induction cs generalizing h with
  | nil => simp [issued]
  | cons c cs ih =>
    unfold issued at hall ⊢
    split
    · rename_i hc
      simp only [hc, if_true, List.all_cons, Bool.true_and] at hall
      simp [ih _ hall]
    · rename_i hc
      simp [hc] at hall

theorem issued_of_success (w : World) (h : List Entry) (cs : List Call)
    (hall : ∀ e ∈ replay w h cs, e.success = true) : issued w h cs = replay w h cs := by
  induction cs generalizing h with
  | nil => simp [issued, replay]
  | cons c cs ih =>
    unfold replay at hall
    have hc : (w.run h c).1 = true := hall _ (List.mem_cons_self _ _)
    unfold issued replay
    simp only [hc, if_true, List.cons.injEq, true_and]
    rw [hc] at hall
    exact ih _ (fun e he => hall e (List.mem_cons_of_mem _ he))

theorem replay_calls (w : World) (h : List Entry) (cs : List Call) :
    (replay w h cs).map Entry.call = cs := by
  induction cs generalizing h with
  | nil => simp [replay]
  | cons c cs ih => simp [replay, ih]

/-! ### One goroutine, all goroutines -/

theorem script_notices (p : Plan) (node : Str) (m : Str)
    (hm : some m ∈ (script p node).map Prod.fst) :
    m = node ++ ": adding node...".toList ∨ m = node ++ ": joining cluster...".toList ∨
    (m = node ++ ": adding node to haproxy loadbalancer...".toList ∧
      p.haproxy_salt.length > 0) := by
  unfold script at hm
  by_cases h : p.haproxy_salt.length > 0
  · simp only [h, if_true] at hm
    simp only [List.cons_append, List.nil_append, List.map_cons, List.map_nil, List.mem_cons,
      Option.some.injEq, List.not_mem_nil, or_false, reduceCtorEq, false_or] at hm
    rcases hm with rfl | rfl | rfl
    · exact Or.inl rfl
    · exact Or.inr (Or.inl rfl)
    · exact Or.inr (Or.inr ⟨rfl, h⟩)
  · simp only [h, if_false] at hm
    simp only [List.append_nil, List.map_cons, List.map_nil, List.mem_cons,
      Option.some.injEq, List.not_mem_nil, or_false, reduceCtorEq, false_or] at hm
    rcases hm with rfl | rfl
    · exact Or.inl rfl
    · exact Or.inr (Or.inl rfl)

/-- What the goroutine of one node leaves behind. -/
theorem goroutine_spec (w : World) (p : Plan) (node : Str) (s : State) :
    (goroutine w p node s).trace = s.trace ++ issued w s.trace (stepCalls p node) ∧
    (goroutine w p node s).failed =
      s.failed + (if (issued w s.trace (stepCalls p node)).all (fun e => e.success)
        then 0 else 1) ∧
    (goroutine w p node s).joincmd_g = s.joincmd_g ∧
    (goroutine w p node s).token_create_time = s.token_create_time ∧
    ∃ evs, (goroutine w p node s).events = s.events ++ evs ∧
      evs.filter (fun e => !e.Success) =
        failureEvents node (issued w s.trace (stepCalls p node)) ∧
      (∀ e ∈ evs, e.Success = true →
        e.Message = node ++ ": adding node...".toList ∨
        e.Message = node ++ ": joining cluster...".toList ∨
        (e.Message = node ++ ": adding node to haproxy loadbalancer...".toList ∧
          p.haproxy_salt.length > 0) ∨
        (e.Message = node ++ ": node successful added".toList ∧
          (issued w s.trace (stepCalls p node)).all (fun e => e.success) = true)) ∧
      ((issued w s.trace (stepCalls p node)).all (fun e => e.success) = true →
        evs.getLast? = some ⟨true, node ++ ": node successful added".toList⟩) := by
  obtain ⟨h1, h2, h3, h4, h5, evs, h6, h7, h8⟩ := runSteps_spec w node (script p node) s
  rw [script_calls] at h1 h2 h8
  rw [goroutine_eq_runSteps]
  cases hr : runSteps w node (script p node) s with
  | mk ok s1 =>
    rw [hr] at h1 h2 h3 h4 h5 h6
    simp only at h1 h2 h3 h4 h5 h6
    cases ok with
    | false =>
      simp only
      refine ⟨h1, ?_, h4, h5, evs, h6, h8, ?_, ?_⟩
      · rw [h3, ← h2]
      · intro e he hs
        rcases script_notices p node e.Message (h7 e he hs) with h | h | h
        · exact Or.inl h
        · exact Or.inr (Or.inl h)
        · exact Or.inr (Or.inr (Or.inl h))
      · intro hall
        rw [← h2] at hall
        exact absurd hall Bool.false_ne_true
    | true =>
      simp only [Send]
      refine ⟨h1, ?_, h4, h5,
        evs ++ [⟨true, node ++ ": node successful added".toList⟩], ?_, ?_, ?_, ?_⟩
      · rw [h3, ← h2]
      · rw [h6, List.append_assoc]
      · rw [List.filter_append, h8]
        simp
      · intro e he hs
        rcases List.mem_append.1 he with he | he
        · rcases script_notices p node e.Message (h7 e he hs) with h | h | h
          · exact Or.inl h
          · exact Or.inr (Or.inl h)
          · exact Or.inr (Or.inr (Or.inl h))
        · rw [List.mem_singleton] at he
          subst he
          exact Or.inr (Or.inr (Or.inr ⟨rfl, h2.symm⟩))
      · intro _
        simp

theorem issued_nodeLog (w : World) (p : Plan) (node : Str) (h : List Entry) :
    NodeLog p node (issued w h (stepCalls p node)) := by
  refine ⟨?_, issued_calls w h _, fun pre e hseg => issued_init w h _ pre e hseg, ?_⟩
  · unfold stepCalls
    exact issued_ne_nil w h _ _
  · intro hall
    exact (issued_calls w h _).eq_of_length (by simp [issued_length w h _ hall])

theorem colon_mem_goroutine_events (w : World) (p : Plan) (node : Str) (s : State)
    (evs : List StatusReply)
    (hev : evs.filter (fun e => !e.Success) =
      failureEvents node (issued w s.trace (stepCalls p node)))
    (htrue : ∀ e ∈ evs, e.Success = true →
        e.Message = node ++ ": adding node...".toList ∨
        e.Message = node ++ ": joining cluster...".toList ∨
        (e.Message = node ++ ": adding node to haproxy loadbalancer...".toList ∧
          p.haproxy_salt.length > 0) ∨
        (e.Message = node ++ ": node successful added".toList ∧
          (issued w s.trace (stepCalls p node)).all (fun e => e.success) = true)) :
    ∀ e ∈ evs, ':' ∈ e.Message := by
  intro e he
  cases hs : e.Success with
  | true =>
    rcases htrue e he hs with h | h | h | h
    · rw [h]; simp
    · rw [h]; simp
    · rw [h.1]; simp
    · rw [h.1]; simp
  | false =>
    have hmem : e ∈ evs.filter (fun e => !e.Success) := by
      simp [List.mem_filter, he, hs]
    rw [hev] at hmem
    simp only [failureEvents, List.mem_map] at hmem
    obtain ⟨x, _, rfl⟩ := hmem
    simp

/-- What the goroutines of a list of nodes leave behind, run one after another. -/
theorem foldl_goroutine_spec (w : World) (p : Plan) (l : List Str) (s : State) :
    ∃ segs evs, List.Forall₂ (NodeLog p) l segs ∧
      (l.foldl (fun s node => goroutine w p node s) s).trace = s.trace ++ segs.flatten ∧
      (l.foldl (fun s node => goroutine w p node s) s).failed =
        s.failed + (segs.filter (fun seg => seg.any (fun e => !e.success))).length ∧
      (l.foldl (fun s node => goroutine w p node s) s).events = s.events ++ evs ∧
      (∀ e ∈ evs, ':' ∈ e.Message) ∧
      (l.foldl (fun s node => goroutine w p node s) s).joincmd_g = s.joincmd_g ∧
      (l.foldl (fun s node => goroutine w p node s) s).token_create_time =
        s.token_create_time := by
  induction l generalizing s with
  | nil => exact ⟨[], [], List.Forall₂.nil, by simp, by simp, by simp, by simp, rfl, rfl⟩
  | cons node l ih =>
    obtain ⟨g1, g2, g3, g4, evs1, g5, g6, g7, _⟩ := goroutine_spec w p node s
    obtain ⟨segs, evs, i1, i2, i3, i4, i5, i6, i7⟩ := ih (goroutine w p node s)
    refine ⟨issued w s.trace (stepCalls p node) :: segs, evs1 ++ evs,
      List.Forall₂.cons (issued_nodeLog w p node s.trace) i1, ?_, ?_, ?_, ?_, ?_, ?_⟩
    · rw [List.foldl_cons, i2, g1]; simp
    · rw [List.foldl_cons, i3, g2, List.filter_cons]
      cases hall : (issued w s.trace (stepCalls p node)).all (fun e => e.success) with
      | true =>
        have : (issued w s.trace (stepCalls p node)).any (fun e => !e.success) = false := by
          rw [← Bool.not_eq_true, List.any_eq_true]
          rintro ⟨x, hx, hx2⟩
          rw [List.all_eq_true] at hall
          simp [hall x hx] at hx2
        simp [this]
      | false =>
        have : (issued w s.trace (stepCalls p node)).any (fun e => !e.success) = true := by
          rw [List.any_eq_true]
          by_contra hne
          push_neg at hne
          have : (issued w s.trace (stepCalls p node)).all (fun e => e.success) = true := by
            rw [List.all_eq_true]
            intro x hx
            have := hne x hx
            simpa using this
          rw [hall] at this
          exact absurd this Bool.false_ne_true
        simp [this]
        omega
    · rw [List.foldl_cons, i4, g5, List.append_assoc]
    · intro e he
      rcases List.mem_append.1 he with he | he
      · exact colon_mem_goroutine_events w p node s evs1 g6 g7 e he
      · exact i5 e he
    · rw [List.foldl_cons, i6, g3]
    · rw [List.foldl_cons, i7, g4]

/-! ### The three preparatory parts, case by case -/

theorem refreshToken_fresh (w : World) (m : Str) (s : State)
    (h : olderThan23Hours (Sub w.sinceNow s.token_create_time) = false) :
    refreshToken w m s = .next () s := by
  simp [refreshToken, h]

theorem refreshToken_failed (w : World) (m : Str) (s : State)
    (h : olderThan23Hours (Sub w.sinceNow s.token_create_time) = true)
    (hr : (w.run s.trace (tokenCreate m)).1 = false) :
    refreshToken w m s =
      .ret (w.sendFails (s.events ++ [⟨true, "Generate new token ...".toList⟩])
          ⟨false, (w.run s.trace (tokenCreate m)).2⟩)
        { s with
          trace := s.trace ++ [⟨tokenCreate m, false, (w.run s.trace (tokenCreate m)).2⟩],
          events := s.events ++ [⟨true, "Generate new token ...".toList⟩,
            ⟨false, (w.run s.trace (tokenCreate m)).2⟩] } := by
  simp [refreshToken, h, exec, Send, hr]

theorem refreshToken_done (w : World) (m : Str) (s : State)
    (h : olderThan23Hours (Sub w.sinceNow s.token_create_time) = true)
    (hr : (w.run s.trace (tokenCreate m)).1 = true) :
    refreshToken w m s =
      .next ()
        { joincmd_g := parseToken m (w.run s.trace (tokenCreate m)).2,
          token_create_time := w.now,
          trace := s.trace ++ [⟨tokenCreate m, true, (w.run s.trace (tokenCreate m)).2⟩],
          events := s.events ++ [⟨true, "Generate new token ...".toList⟩],
          failed := s.failed } := by
  simp [refreshToken, h, exec, Send, hr]

theorem uploadCerts_worker (w : World) (m nodeType : Str) (s : State)
    (h : EqualFold nodeType "master".toList = false) :
    uploadCerts w m nodeType s = .next (s.joincmd_g, []) s := by
  simp only [uploadCerts, h, Bool.false_eq_true, if_false]

theorem uploadCerts_failed (w : World) (m nodeType : Str) (s : State)
    (h : EqualFold nodeType "master".toList = true)
    (hr : (w.run s.trace (uploadCertsCall m)).1 = false) :
    uploadCerts w m nodeType s =
      .ret (w.sendFails (s.events ++ [⟨true, "Upload certificates ...".toList⟩])
          ⟨false, (w.run s.trace (uploadCertsCall m)).2⟩)
        { s with
          trace := s.trace ++
            [⟨uploadCertsCall m, false, (w.run s.trace (uploadCertsCall m)).2⟩],
          events := s.events ++ [⟨true, "Upload certificates ...".toList⟩,
            ⟨false, (w.run s.trace (uploadCertsCall m)).2⟩] } := by
  simp only [uploadCerts, h, exec, Send, hr, if_true, List.append_assoc, List.cons_append,
    List.nil_append]

theorem uploadCerts_panic (w : World) (m nodeType : Str) (s : State)
    (h : EqualFold nodeType "master".toList = true)
    (hr : (w.run s.trace (uploadCertsCall m)).1 = true)
    (hk : (certKeyLines (w.run s.trace (uploadCertsCall m)).2)[2]? = none) :
    uploadCerts w m nodeType s =
      .panic
        { s with
          trace := s.trace ++
            [⟨uploadCertsCall m, true, (w.run s.trace (uploadCertsCall m)).2⟩],
          events := s.events ++ [⟨true, "Upload certificates ...".toList⟩] } := by
  simp only [uploadCerts, h, exec, Send, hr, if_true]
  rw [hk]

theorem uploadCerts_done (w : World) (m nodeType : Str) (s : State) (key : Str)
    (h : EqualFold nodeType "master".toList = true)
    (hr : (w.run s.trace (uploadCertsCall m)).1 = true)
    (hk : (certKeyLines (w.run s.trace (uploadCertsCall m)).2)[2]? = some key) :
    uploadCerts w m nodeType s =
      .next (s.joincmd_g ++ " --control-plane".toList ++ " --certificate-key ".toList ++
          TrimSuffix key "\n".toList,
          w.Read_Cfg "control-plane.conf".toList "loadbalancer_salt".toList)
        { s with
          trace := s.trace ++
            [⟨uploadCertsCall m, true, (w.run s.trace (uploadCertsCall m)).2⟩],
          events := s.events ++ [⟨true, "Upload certificates ...".toList⟩] } := by
  simp only [uploadCerts, h, exec, Send, hr, if_true]
  rw [hk]

theorem pingNodes_failed (w : World) (nodeNames : Str) (s : State)
    (hr : (w.run s.trace (pingCall nodeNames)).1 = false) :
    pingNodes w nodeNames s =
      .ret (w.sendFails s.events ⟨false, (w.run s.trace (pingCall nodeNames)).2⟩)
        { s with
          trace := s.trace ++
            [⟨pingCall nodeNames, false, (w.run s.trace (pingCall nodeNames)).2⟩],
          events := s.events ++ [⟨false, (w.run s.trace (pingCall nodeNames)).2⟩] } := by
  simp [pingNodes, exec, Send, hr]

theorem pingNodes_done (w : World) (nodeNames : Str) (s : State)
    (hr : (w.run s.trace (pingCall nodeNames)).1 = true) :
    pingNodes w nodeNames s =
      .next (parseNodelist (w.run s.trace (pingCall nodeNames)).2)
        { s with
          trace := s.trace ++
            [⟨pingCall nodeNames, true, (w.run s.trace (pingCall nodeNames)).2⟩] } := by
  simp [pingNodes, exec, hr]

/-- The node type after line 64-66. -/
theorem EqualFold_default (nodeType : Str) :
    EqualFold (if nodeType.length = 0 then "worker".toList else nodeType) "master".toList =
      EqualFold nodeType "master".toList := by
  cases nodeType with
  | nil => decide
  | cons c cs => simp

theorem pingEnds (w : World) (req : AddNodeRequest) (s2 : State)
    (joincmd haproxy_salt : Str) :
    PingEnds w req s2 joincmd haproxy_salt
      (match pingNodes w req.NodeNames s2 with
        | .ret err s => Flow.ret err s
        | .panic s => Flow.panic s
        | .next nodelist s => Flow.next (⟨nodelist, joincmd,
            if req.Type_.length = 0 then "worker".toList else req.Type_, haproxy_salt⟩ : Plan) s)
      := by
  cases hr : (w.run s2.trace (pingCall req.NodeNames)).1 with
  | false =>
    exact Or.inl ⟨_, _, Prod.ext hr rfl, by rw [pingNodes_failed w _ _ hr]⟩
  | true =>
    exact Or.inr ⟨_, Prod.ext hr rfl, by rw [pingNodes_done w _ _ hr]⟩

theorem uploadEnds (w : World) (req : AddNodeRequest) (s1 : State) :
    UploadEnds w req s1
      (match uploadCerts w (master_salt w)
          (if req.Type_.length = 0 then "worker".toList else req.Type_) s1 with
        | .ret err s => Flow.ret err s
        | .panic s => Flow.panic s
        | .next (joincmd, haproxy_salt) s =>
          match pingNodes w req.NodeNames s with
          | .ret err s => Flow.ret err s
          | .panic s => Flow.panic s
          | .next nodelist s => Flow.next (⟨nodelist, joincmd,
              if req.Type_.length = 0 then "worker".toList else req.Type_, haproxy_salt⟩ : Plan) s)
      := by
  cases hm : EqualFold req.Type_ "master".toList with
  | false =>
    rw [uploadCerts_worker w _ _ s1 (by rw [EqualFold_default]; exact hm)]
    exact Or.inr (Or.inr ⟨s1, s1.joincmd_g, [], Or.inl ⟨hm, rfl, rfl, rfl⟩, pingEnds _ _ _ _ _⟩)
  | true =>
    have hm2 := (EqualFold_default req.Type_).trans hm
    cases hr : (w.run s1.trace (uploadCertsCall (master_salt w))).1 with
    | false =>
      rw [uploadCerts_failed w _ _ s1 hm2 hr]
      exact Or.inl ⟨hm, _, _, Prod.ext hr rfl, rfl⟩
    | true =>
      cases hk : (certKeyLines (w.run s1.trace (uploadCertsCall (master_salt w))).2)[2]? with
      | none =>
        rw [uploadCerts_panic w _ _ s1 hm2 hr hk]
        exact Or.inr (Or.inl ⟨hm, _, Prod.ext hr rfl, hk, rfl⟩)
      | some key =>
        rw [uploadCerts_done w _ _ s1 key hm2 hr hk]
        exact Or.inr (Or.inr ⟨_, _, _,
          Or.inr ⟨hm, _, key, Prod.ext hr rfl, hk, rfl, rfl, rfl⟩, pingEnds _ _ _ _ _⟩)

/-- Every way through lines 32-111. -/
theorem prepare_cases (w : World) (req : AddNodeRequest) (s : State) :
    PrepareEnds w req s (prepare w req s) := by
  cases hst : olderThan23Hours (Sub w.sinceNow s.token_create_time) with
  | false =>
    refine Or.inr ⟨s, Or.inl ⟨hst, rfl⟩, ?_⟩
    simp only [prepare, refreshToken_fresh w _ s hst]
    exact uploadEnds w req s
  | true =>
    cases hr : (w.run s.trace (tokenCreate (master_salt w))).1 with
    | false =>
      refine Or.inl ⟨hst, _, w.sendFails (s.events ++ [⟨true, "Generate new token ...".toList⟩])
          ⟨false, (w.run s.trace (tokenCreate (master_salt w))).2⟩, Prod.ext hr rfl, ?_⟩
      simp only [prepare, refreshToken_failed w _ s hst hr]
    | true =>
      refine Or.inr ⟨_, Or.inr ⟨hst, _, Prod.ext hr rfl, rfl⟩, ?_⟩
      simp only [prepare, refreshToken_done w _ s hst hr]
      exact uploadEnds w req _

/-! ### The whole call -/

theorem stepCalls_mem (p : Plan) (node : Str) (c : Call) (h : c ∈ stepCalls p node) :
    c = startCrio node ∨ c = enableCrio node ∨ c = startKubelet node ∨
    c = enableKubelet node ∨ c = runJoin node p.joincmd ∨ c = appendGrain node p.nodeType ∨
    c = setRebootMethod node ∨ c = haproxyAdd p.haproxy_salt node := by
  unfold stepCalls at h
  by_cases hs : p.haproxy_salt.length > 0
  · simp only [hs, if_true, List.cons_append, List.nil_append, List.mem_cons,
      List.not_mem_nil, or_false] at h
    exact h
  · simp only [hs, if_false, List.append_nil, List.mem_cons, List.not_mem_nil, or_false] at h
    rcases h with h | h | h | h | h | h | h <;> simp [h]

theorem rebootMethodScript_ne_ping : rebootMethodScript ≠ "test.ping".toList := by
  decide

/-- No command of a goroutine is one of the three preparatory commands, and
none has `test.ping` as its last argument. -/
theorem stepCalls_not_prepare (p : Plan) (node : Str) (c : Call) (h : c ∈ stepCalls p node) :
    (∀ m, c ≠ tokenCreate m) ∧ (∀ m, c ≠ uploadCertsCall m) ∧
    (∀ cmd args, c = .ExecuteCmd cmd args → args.getLast? ≠ some "test.ping".toList) := by
  rcases stepCalls_mem p node c h with h | h | h | h | h | h | h | h <;> subst h
  all_goals
    refine ⟨fun m => by simp [tokenCreate, startCrio, enableCrio, startKubelet, enableKubelet,
        runJoin, appendGrain, setRebootMethod, haproxyAdd],
      fun m => by simp [uploadCertsCall, startCrio, enableCrio, startKubelet, enableKubelet,
        runJoin, appendGrain, setRebootMethod, haproxyAdd], ?_⟩
    intro cmd args hc
    simp only [startCrio, enableCrio, startKubelet, enableKubelet,
        runJoin, appendGrain, setRebootMethod, haproxyAdd, Call.ExecuteCmd.injEq] at hc
    rw [← hc.2]
    simp
    try exact rebootMethodScript_ne_ping

theorem pingCall_last (nodeNames : Str) :
    ∃ args, pingCall nodeNames = .ExecuteCmd "salt".toList args ∧
      args.getLast? = some "test.ping".toList := by
  unfold pingCall
  split
  · exact ⟨_, rfl, by simp⟩
  · exact ⟨_, rfl, by simp⟩

theorem stepCalls_ne_pingCall (p : Plan) (node : Str) (c : Call) (h : c ∈ stepCalls p node)
    (nodeNames : Str) : c ≠ pingCall nodeNames := by
  obtain ⟨args, h1, h2⟩ := pingCall_last nodeNames
  intro heq
  exact (stepCalls_not_prepare p node c h).2.2 _ args (heq.trans h1) h2

theorem mem_nodeLogs (p : Plan) (l : List Str) (segs : List (List Entry))
    (h : List.Forall₂ (NodeLog p) l segs) (e : Entry) (he : e ∈ segs.flatten) :
    ∃ node ∈ l, e.call ∈ stepCalls p node := by
  induction h with
  | nil => simp at he
  | @cons node seg l segs hlog _ ih =>
    rw [List.flatten_cons, List.mem_append] at he
    rcases he with he | he
    · exact ⟨node, List.mem_cons_self _ _,
        hlog.2.1.subset (List.mem_map_of_mem _ he)⟩
    · obtain ⟨n, hn, hc⟩ := ih he
      exact ⟨n, List.mem_cons_of_mem _ hn, hc⟩

/-- How a call of `AddNode` ends: with the preparation when that returns or
panics, else after the goroutines, whose logs follow the log of the
preparation. -/
theorem AddNode_cases (w : World) (req : AddNodeRequest) (joincmd_g : Str)
    (token_create_time : Int) :
    (∃ err s, prepare w req (start joincmd_g token_create_time) = .ret err s ∧
      AddNode w req joincmd_g token_create_time = ⟨.returned err, s⟩) ∨
    (∃ s, prepare w req (start joincmd_g token_create_time) = .panic s ∧
      AddNode w req joincmd_g token_create_time = ⟨.panicked, s⟩) ∨
    (∃ p s segs evs err,
      prepare w req (start joincmd_g token_create_time) = .next p s ∧
      List.Forall₂ (NodeLog p) p.nodelist segs ∧
      (AddNode w req joincmd_g token_create_time).outcome = .returned err ∧
      (AddNode w req joincmd_g token_create_time).state.trace = s.trace ++ segs.flatten ∧
      (AddNode w req joincmd_g token_create_time).state.failed =
        s.failed + (segs.filter (fun seg => seg.any (fun e => !e.success))).length ∧
      (AddNode w req joincmd_g token_create_time).state.events =
        s.events ++ evs ++
          (if 0 < s.failed + (segs.filter (fun seg => seg.any (fun e => !e.success))).length
            then [globalError] else []) ∧
      (∀ e ∈ evs, ':' ∈ e.Message) ∧
      (AddNode w req joincmd_g token_create_time).state.joincmd_g = s.joincmd_g ∧
      (AddNode w req joincmd_g token_create_time).state.token_create_time =
        s.token_create_time) := by
  cases hp : prepare w req (start joincmd_g token_create_time) with
  | ret err s => exact Or.inl ⟨err, s, rfl, by unfold AddNode; rw [hp]⟩
  | panic s => exact Or.inr (Or.inl ⟨s, rfl, by unfold AddNode; rw [hp]⟩)
  | next p s =>
    have hA : AddNode w req joincmd_g token_create_time = finish w (fanOut w p s) := by
      unfold AddNode; rw [hp]
    rw [hA]
    obtain ⟨segs, evs, h1, h2, h3, h4, h5, h6, h7⟩ := foldl_goroutine_spec w p p.nodelist s
    refine Or.inr (Or.inr ⟨p, s, segs, evs, ?_⟩)
    unfold finish fanOut
    by_cases hf : (List.foldl (fun s node => goroutine w p node s) s p.nodelist).failed > 0
    · rw [if_pos hf]
      rw [h3] at hf
      refine ⟨_, rfl, h1, rfl, ?_, ?_, ?_, ?_, ?_, ?_⟩
      · simpa [Send] using h2
      · simpa [Send] using h3
      · simp [Send, h4, hf]
      · exact h5
      · simpa [Send] using h6
      · simpa [Send] using h7
    · rw [if_neg hf]
      rw [h3] at hf
      refine ⟨false, rfl, h1, rfl, h2, h3, ?_, h5, h6, h7⟩
      simp [h4, hf]

theorem prepare_next (w : World) (req : AddNodeRequest) (s0 : State) (p : Plan) (s : State)
    (hp : prepare w req s0 = .next p s) :
    ∃ s1 s2, TokenLeaves w s0 s1 ∧ UploadLeaves w req s1 s2 p.joincmd p.haproxy_salt ∧
      ∃ out, w.run s2.trace (pingCall req.NodeNames) = (true, out) ∧
        p.nodelist = parseNodelist out ∧
        p.nodeType = (if req.Type_.length = 0 then "worker".toList else req.Type_) ∧
        s = { s2 with trace := s2.trace ++ [⟨pingCall req.NodeNames, true, out⟩] } := by
  have hc := prepare_cases w req s0
  rw [hp] at hc
  rcases hc with ⟨_, _, _, _, heq⟩ | ⟨s1, hT, ⟨_, _, _, _, heq⟩ | ⟨_, _, _, _, heq⟩ |
    ⟨s2, jc, lb, hU, ⟨_, _, _, heq⟩ | ⟨out, hrun, heq⟩⟩⟩
  · cases heq
  · cases heq
  · cases heq
  · cases heq
  · cases heq
    exact ⟨s1, s2, hT, hU, out, hrun, rfl, rfl, rfl⟩

theorem prepare_panic (w : World) (req : AddNodeRequest) (s0 : State) (s : State)
    (hp : prepare w req s0 = .panic s) :
    ∃ s1, TokenLeaves w s0 s1 ∧ EqualFold req.Type_ "master".toList = true ∧
      ∃ out, w.run s1.trace (uploadCertsCall (master_salt w)) = (true, out) ∧
        (certKeyLines out)[2]? = none ∧
        s = { s1 with
          trace := s1.trace ++ [⟨uploadCertsCall (master_salt w), true, out⟩],
          events := s1.events ++ [⟨true, "Upload certificates ...".toList⟩] } := by
  have hc := prepare_cases w req s0
  rw [hp] at hc
  rcases hc with ⟨_, _, _, _, heq⟩ | ⟨s1, hT, ⟨_, _, _, _, heq⟩ | ⟨hm, out, hrun, hk, heq⟩ |
    ⟨s2, jc, lb, hU, ⟨_, _, _, heq⟩ | ⟨_, _, heq⟩⟩⟩
  · cases heq
  · cases heq
  · cases heq
    exact ⟨s1, hT, hm, out, hrun, hk, rfl⟩
  · cases heq
  · cases heq

theorem prepare_ret (w : World) (req : AddNodeRequest) (s0 : State) (err : Bool) (s : State)
    (hp : prepare w req s0 = .ret err s) :
    (olderThan23Hours (Sub w.sinceNow s0.token_create_time) = true ∧
      ∃ out, w.run s0.trace (tokenCreate (master_salt w)) = (false, out) ∧
        s = { s0 with
          trace := s0.trace ++ [⟨tokenCreate (master_salt w), false, out⟩],
          events := s0.events ++
            [⟨true, "Generate new token ...".toList⟩, ⟨false, out⟩] }) ∨
    (∃ s1, TokenLeaves w s0 s1 ∧ EqualFold req.Type_ "master".toList = true ∧
      ∃ out, w.run s1.trace (uploadCertsCall (master_salt w)) = (false, out) ∧
        s = { s1 with
          trace := s1.trace ++ [⟨uploadCertsCall (master_salt w), false, out⟩],
          events := s1.events ++
            [⟨true, "Upload certificates ...".toList⟩, ⟨false, out⟩] }) ∨
    (∃ s1 s2 joincmd haproxy_salt, TokenLeaves w s0 s1 ∧
      UploadLeaves w req s1 s2 joincmd haproxy_salt ∧
      ∃ out, w.run s2.trace (pingCall req.NodeNames) = (false, out) ∧
        s = { s2 with
          trace := s2.trace ++ [⟨pingCall req.NodeNames, false, out⟩],
          events := s2.events ++ [⟨false, out⟩] }) := by
  have hc := prepare_cases w req s0
  rw [hp] at hc
  rcases hc with ⟨hst, out, _, hrun, heq⟩ | ⟨s1, hT, ⟨hm, out, _, hrun, heq⟩ |
    ⟨_, _, _, _, heq⟩ | ⟨s2, jc, lb, hU, ⟨out, _, hrun, heq⟩ | ⟨_, _, heq⟩⟩⟩
  · cases heq
    exact Or.inl ⟨hst, out, hrun, rfl⟩
  · cases heq
    exact Or.inr (Or.inl ⟨s1, hT, hm, out, hrun, rfl⟩)
  · cases heq
  · cases heq
    exact Or.inr (Or.inr ⟨s1, s2, jc, lb, hT, hU, out, hrun, rfl⟩)
  · cases heq

/-- What the token part leaves when it does not end the call. -/
theorem TokenLeaves_log (w : World) (s0 s1 : State) (h : TokenLeaves w s0 s1) :
    s1.failed = s0.failed ∧
    ∃ tr evs, s1.trace = s0.trace ++ tr ∧ s1.events = s0.events ++ evs ∧
      (∀ e ∈ tr, e.call = tokenCreate (master_salt w) ∧ e.success = true) ∧
      (∀ e ∈ evs, e = ⟨true, "Generate new token ...".toList⟩) := by
  rcases h with ⟨_, rfl⟩ | ⟨_, out, _, rfl⟩
  · exact ⟨rfl, [], [], by simp, by simp, by simp, by simp⟩
  · exact ⟨rfl, _, _, rfl, rfl, by simp, by simp⟩

/-- What the upload part leaves when it does not end the call. -/
theorem UploadLeaves_log (w : World) (req : AddNodeRequest) (s1 s2 : State)
    (joincmd haproxy_salt : Str) (h : UploadLeaves w req s1 s2 joincmd haproxy_salt) :
    s2.failed = s1.failed ∧ s2.joincmd_g = s1.joincmd_g ∧
    s2.token_create_time = s1.token_create_time ∧
    ∃ tr evs, s2.trace = s1.trace ++ tr ∧ s2.events = s1.events ++ evs ∧
      (∀ e ∈ tr, e.call = uploadCertsCall (master_salt w) ∧ e.success = true) ∧
      (∀ e ∈ evs, e = ⟨true, "Upload certificates ...".toList⟩) := by
  rcases h with ⟨_, rfl, _, _⟩ | ⟨_, out, key, _, _, rfl, _, _⟩
  · exact ⟨rfl, rfl, rfl, [], [], by simp, by simp, by simp, by simp⟩
  · exact ⟨rfl, rfl, rfl, _, _, rfl, rfl, by simp, by simp⟩

theorem rebootMethodScript_head : rebootMethodScript.head? = some 'i' := by
  decide

/-- A join command among the steps of a node is the join command of the plan. -/
theorem runJoin_mem_stepCalls (p : Plan) (node node1 x : Str)
    (h : runJoin node1 x ∈ stepCalls p node) : x = p.joincmd := by
  rcases stepCalls_mem p node _ h with h | h | h | h | h | h | h | h
  · simp [runJoin, startCrio] at h
  · simp [runJoin, enableCrio] at h
  · simp [runJoin, startKubelet] at h
  · simp [runJoin, enableKubelet] at h
  · simp only [runJoin, Call.ExecuteCmd.injEq, List.cons.injEq, true_and, and_true] at h
    have h2 := h.2
    simp only [List.append_assoc, List.append_cancel_left_eq] at h2
    exact List.append_cancel_right h2
  · simp [runJoin, appendGrain] at h
  · simp only [runJoin, setRebootMethod, Call.ExecuteCmd.injEq, List.cons.injEq, true_and,
      and_true] at h
    have := congrArg List.head? h.2
    rw [rebootMethodScript_head] at this
    simp at this
  · simp [runJoin, haproxyAdd] at h

theorem pingCall_ne_tokenCreate (nodeNames m : Str) : pingCall nodeNames ≠ tokenCreate m := by
  obtain ⟨args, h, _⟩ := pingCall_last nodeNames
  rw [h]
  simp [tokenCreate]

theorem pingCall_ne_uploadCertsCall (nodeNames m : Str) :
    pingCall nodeNames ≠ uploadCertsCall m := by
  obtain ⟨args, h, _⟩ := pingCall_last nodeNames
  rw [h]
  simp [uploadCertsCall]

theorem uploadCertsCall_ne_tokenCreate (m m1 : Str) : uploadCertsCall m ≠ tokenCreate m1 := by
  simp [uploadCertsCall, tokenCreate]

theorem pingCall_ne_runJoin (nodeNames node x : Str) : pingCall nodeNames ≠ runJoin node x := by
  obtain ⟨args, h, hl⟩ := pingCall_last nodeNames
  rw [h]
  intro heq
  simp only [runJoin, Call.ExecuteCmd.injEq, true_and] at heq
  rw [heq] at hl
  simp at hl

theorem issued_append_of_success (w : World) (h : List Entry) (cs cs1 : List Call)
    (hall : ∀ e ∈ replay w h cs, e.success = true) :
    issued w h (cs ++ cs1) = replay w h cs ++ issued w (h ++ replay w h cs) cs1 := by
  induction cs generalizing h with
  | nil => simp [replay]
  | cons c cs ih =>
    unfold replay at hall
    have hc : (w.run h c).1 = true := hall _ (List.mem_cons_self _ _)
    rw [hc] at hall
    rw [List.cons_append, issued, replay]
    simp only [hc, if_true, List.cons_append, List.cons.injEq, true_and]
    rw [ih _ (fun e he => hall e (List.mem_cons_of_mem _ he))]
    simp

theorem runSteps_events_of_success (w : World) (node : Str) (sc : List (Option Str × Call))
    (s : State) (hall : ∀ e ∈ replay w s.trace (sc.map Prod.snd), e.success = true) :
    (runSteps w node sc s).2.events =
      s.events ++ (sc.filterMap Prod.fst).map (fun m => ⟨true, m⟩) := by
  induction sc generalizing s with
  | nil => simp [runSteps]
  | cons step rest ih =>
    obtain ⟨notice, c⟩ := step
    simp only [List.map_cons, replay] at hall
    have hc : (w.run s.trace c).1 = true := hall _ (List.mem_cons_self _ _)
    rw [hc] at hall
    cases notice with
    | none =>
      simp only [runSteps, exec, hc]
      rw [ih _ (fun e he => hall e (List.mem_cons_of_mem _ he))]
      simp
    | some m =>
      simp only [runSteps, exec, hc, Send]
      rw [ih _ (fun e he => hall e (List.mem_cons_of_mem _ he))]
      simp

theorem stepCalls_take_seven (p : Plan) (node : Str) :
    (stepCalls p node).take 7 =
      [startCrio node, enableCrio node, startKubelet node, enableKubelet node,
       runJoin node p.joincmd, appendGrain node p.nodeType, setRebootMethod node] := by
  simp [stepCalls]

theorem issued_singleton (w : World) (h : List Entry) (c : Call) :
    issued w h [c] = [⟨c, (w.run h c).1, (w.run h c).2⟩] := by
  unfold issued
  cases hc : (w.run h c).1 <;> simp [issued]

/-- The load balancer of the plan: the configured one for a master, none
otherwise. -/
theorem prepare_haproxy_salt (w : World) (req : AddNodeRequest) (s0 : State) (p : Plan)
    (s : State) (hp : prepare w req s0 = .next p s) :
    p.haproxy_salt =
      if EqualFold req.Type_ "master".toList then
        w.Read_Cfg "control-plane.conf".toList "loadbalancer_salt".toList
      else [] := by
  obtain ⟨s1, s2, _, hU, _⟩ := prepare_next w req s0 p s hp
  rcases hU with ⟨hw, _, _, hlb⟩ | ⟨hm, _, _, _, _, _, _, hlb⟩
  · rw [hlb, hw]; rfl
  · rw [hlb, hm]; rfl

theorem TrimSuffix_newline_of_mem_Split (s key : Str) (h : key ∈ Split s '\n') :
    TrimSuffix key "\n".toList = key := by
  unfold TrimSuffix
  split
  · rename_i hs
    obtain ⟨t, rfl⟩ := (HasSuffix_iff _ _).1 hs
    exact absurd (by simp) (not_mem_of_mem_Split s '\n' _ h)
  · rfl

theorem refreshToken_next (w : World) (s0 s1 : State)
    (h : refreshToken w (master_salt w) s0 = .next () s1) : TokenLeaves w s0 s1 := by
  cases hst : olderThan23Hours (Sub w.sinceNow s0.token_create_time) with
  | false =>
    rw [refreshToken_fresh w _ s0 hst] at h
    cases h
    exact Or.inl ⟨hst, rfl⟩
  | true =>
    cases hr : (w.run s0.trace (tokenCreate (master_salt w))).1 with
    | false =>
      rw [refreshToken_failed w _ s0 hst hr] at h
      cases h
    | true =>
      rw [refreshToken_done w _ s0 hst hr] at h
      cases h
      exact Or.inr ⟨hst, _, Prod.ext hr rfl, rfl⟩

theorem TrimSpace_append_spaces (pre s : Str) (h : ∀ c ∈ pre, isSpace c = true) :
    TrimSpace (pre ++ s) = TrimSpace s := by
  unfold TrimSpace
  congr 3
  induction pre with
  | nil => rfl
  | cons c pre ih =>
    rw [List.cons_append, List.dropWhile_cons, if_pos (h c (List.mem_cons_self _ _))]
    exact ih (fun x hx => h x (List.mem_cons_of_mem _ hx))

/-- The cached command when the token command went through `salt`. -/
theorem parseToken_routed (master_salt token : Str) (hm : master_salt ≠ []) :
    parseToken master_salt token =
      TrimSpace ((Replace token '\n' []).drop (Index (Replace token '\n' []) ':' + 1).toNat) := by
  have hpos : master_salt.length > 0 := List.length_pos.2 hm
  unfold parseToken
  simp only [hpos, if_true]
  exact TrimSuffix_newline_of_trimmed _ (TrimSpace_getLast _)

/-! ## The claims -/

/-- C1, as amended: a line contributes a node exactly when it ends with
`": True"`, and the node is the text before the first colon of the line, the
resolved list following the order of the lines; when no line has more than one
colon, a name is resolved exactly when `"<name>: True"` is a line of the
output; the lines `host1: True`, `host2: False`, `host3: Error` resolve to
`[host1]`. -/
theorem parseNodelist_resolves (message : Str) :
    parseNodelist message =
      ((Split message '\n').filter (fun entry => HasSuffix entry ": True".toList)).map
        (fun entry => entry.takeWhile (fun c => c != ':')) ∧
    ((∀ entry ∈ Split message '\n', entry.count ':' ≤ 1) →
      ∀ name : Str, name ∈ parseNodelist message ↔
        name ++ ": True".toList ∈ Split message '\n') ∧
    parseNodelist "host1: True\nhost2: False\nhost3: Error".toList = ["host1".toList] := by
  refine ⟨parseNodelist_eq message, ?_, by decide⟩
  intro hcount name
  rw [parseNodelist_eq]
  simp only [List.mem_map, List.mem_filter]
  constructor
  · rintro ⟨entry, ⟨hmem, hsuf⟩, rfl⟩
    obtain ⟨t, rfl⟩ := (HasSuffix_iff _ _).1 hsuf
    have hc := hcount _ hmem
    have ht : ':' ∉ t := by
      intro hin
      have : 0 < t.count ':' := List.count_pos_iff.2 hin
      simp [List.count_append] at hc
      omega
    have : (t ++ ": True".toList).takeWhile (fun c => c != ':') = t :=
      takeWhile_append_of_not_mem t " True".toList ':' ht
    rw [this]
    exact hmem
  · intro hmem
    refine ⟨name ++ ": True".toList, ⟨hmem, (HasSuffix_iff _ _).2 ⟨name, rfl⟩⟩, ?_⟩
    have hc := hcount _ hmem
    have ht : ':' ∉ name := by
      intro hin
      have : 0 < name.count ':' := List.count_pos_iff.2 hin
      simp [List.count_append] at hc
      omega
    exact takeWhile_append_of_not_mem name " True".toList ':' ht

/-- C1, witness: on the output `n1: True`, `n2: False` no line has two colons and `n1` is
resolved. -/
theorem parseNodelist_resolves_witness :
    "n1".toList ∈ parseNodelist "n1: True\nn2: False".toList ↔
      "n1".toList ++ ": True".toList ∈ Split "n1: True\nn2: False".toList '\n' :=
  (parseNodelist_resolves "n1: True\nn2: False".toList).2.1 (by decide) "n1".toList

/-- C1, as stated, fails on the output line `a: b: True`: the node `a` is
resolved although no line is `a: True`, and the line has the form
`<name>: True` for the name `a: b`, which is not resolved. -/
theorem parseNodelist_two_colons :
    parseNodelist "a: b: True".toList = ["a".toList] ∧
    Split "a: b: True".toList '\n' = ["a: b: True".toList] ∧
    "a".toList ++ ": True".toList ∉ Split "a: b: True".toList '\n' ∧
    "a: b".toList ++ ": True".toList ∈ Split "a: b: True".toList '\n' ∧
    "a: b".toList ∉ parseNodelist "a: b: True".toList := by
  decide

/-- C4: for a master request, when the token part goes on with the state `s1`,
the upload succeeds with an output `lines` such that `key` is the piece at
index 2 of `lines` with every colon removed and split at line breaks, and the
ping succeeds, the preparation
gives a plan whose join command is the cached command of `s1` followed by
`" --control-plane --certificate-key <key>"`; every join command the call runs
on a node is that command between double quotes, and `joincmd_g` stays the
cached command without the suffix. The output
`line0\nline1\nABCDEF123\nline3` yields the key `ABCDEF123`, and a line 2
`    AB:CD:EF` yields `    ABCDEF`. -/
theorem control_plane_join_command (w : World) (req : AddNodeRequest) (joincmd_g : Str)
    (token_create_time : Int) (s1 : State) (lines key message : Str)
    (hm : EqualFold req.Type_ "master".toList = true)
    (hT : refreshToken w (master_salt w) (start joincmd_g token_create_time) = .next () s1)
    (hup : w.run s1.trace (uploadCertsCall (master_salt w)) = (true, lines))
    (hkey : (Split (Replace lines ':' []) '\n')[2]? = some key)
    (hping : w.run (s1.trace ++ [⟨uploadCertsCall (master_salt w), true, lines⟩])
      (pingCall req.NodeNames) = (true, message)) :
    (∃ p s, prepare w req (start joincmd_g token_create_time) = .next p s ∧
      p.nodelist = parseNodelist message ∧
      p.joincmd = s1.joincmd_g ++ " --control-plane --certificate-key ".toList ++ key ∧
      ∀ node, (stepCalls p node)[4]? = some (.ExecuteCmd "salt".toList
        [directCall, node, "cmd.run".toList,
          "\"".toList ++ (s1.joincmd_g ++ " --control-plane --certificate-key ".toList ++ key)
            ++ "\"".toList])) ∧
    (∀ e ∈ (AddNode w req joincmd_g token_create_time).state.trace, ∀ node x,
      e.call = runJoin node x →
        x = s1.joincmd_g ++ " --control-plane --certificate-key ".toList ++ key) ∧
    (AddNode w req joincmd_g token_create_time).state.joincmd_g = s1.joincmd_g ∧
    (certKeyLines "line0\nline1\nABCDEF123\nline3".toList)[2]? = some "ABCDEF123".toList ∧
    (certKeyLines "admin:\n    using key:\n    AB:CD:EF\n".toList)[2]? =
      some "    ABCDEF".toList := by
  have hkeymem : key ∈ Split (Replace lines ':' []) '\n' :=
    List.getElem?_mem hkey
  have hm2 := (EqualFold_default req.Type_).trans hm
  have hr1 : (w.run s1.trace (uploadCertsCall (master_salt w))).1 = true := by rw [hup]
  have hk1 : (certKeyLines (w.run s1.trace (uploadCertsCall (master_salt w))).2)[2]? =
      some key := by rw [hup]; exact hkey
  have hp : prepare w req (start joincmd_g token_create_time) =
      .next ⟨parseNodelist message,
          s1.joincmd_g ++ " --control-plane --certificate-key ".toList ++ key,
          if req.Type_.length = 0 then "worker".toList else req.Type_,
          w.Read_Cfg "control-plane.conf".toList "loadbalancer_salt".toList⟩
        { s1 with
          trace := s1.trace ++ [⟨uploadCertsCall (master_salt w), true, lines⟩,
            ⟨pingCall req.NodeNames, true, message⟩],
          events := s1.events ++ [⟨true, "Upload certificates ...".toList⟩] } := by
    simp only [prepare, hT]
    rw [uploadCerts_done w _ _ s1 key hm2 hr1 hk1]
    simp only [hup]
    rw [pingNodes_done w _ _ (by simp only [hping])]
    simp only [hping, TrimSuffix_newline_of_mem_Split _ key hkeymem]
    simp
  refine ⟨⟨_, _, hp, rfl, rfl, fun node => by simp [stepCalls, runJoin]⟩, ?_, ?_, by decide,
    by decide⟩
  · rcases AddNode_cases w req joincmd_g token_create_time with
      ⟨err, s, hp1, _⟩ | ⟨s, hp1, _⟩ | ⟨p, s, segs, evs, err, hp1, hlog, _, htr, _⟩
    · rw [hp] at hp1; cases hp1
    · rw [hp] at hp1; cases hp1
    · rw [hp] at hp1
      cases hp1
      intro e he node x hcall
      rw [htr] at he
      simp only [List.mem_append, List.mem_cons, List.mem_singleton, List.not_mem_nil,
        or_false] at he
      rcases he with (he | rfl | rfl) | he
      · exfalso
        obtain ⟨_, tr, _, ht, _, hc, _⟩ := TokenLeaves_log w _ s1 (refreshToken_next w _ s1 hT)
        rw [ht] at he
        simp only [start, List.nil_append] at he
        rw [(hc e he).1] at hcall
        simp [tokenCreate, runJoin] at hcall
      · simp [uploadCertsCall, runJoin] at hcall
      · exact (pingCall_ne_runJoin _ _ _ hcall).elim
      · obtain ⟨node1, _, hc⟩ := mem_nodeLogs _ _ segs hlog e he
        rw [hcall] at hc
        exact runJoin_mem_stepCalls _ node1 node x hc
  · rcases AddNode_cases w req joincmd_g token_create_time with
      ⟨err, s, hp1, _⟩ | ⟨s, hp1, _⟩ | ⟨p, s, segs, evs, err, hp1, _, _, _, _, _, _, hjc, _⟩
    · rw [hp] at hp1; cases hp1
    · rw [hp] at hp1; cases hp1
    · rw [hp] at hp1
      cases hp1
      exact hjc

/-- C4, witness: in `exampleWorld` a master request gets the refreshed join command with
the key of line 2, and `joincmd_g` is the refreshed command without it. -/
theorem control_plane_join_command_witness :
    (∃ p s, prepare (exampleWorld (24 * Hour)) ⟨"n1,n2".toList, "master".toList⟩
        (start [] 0) = .next p s ∧
      p.joincmd = "kubeadm join 1.2.3.4:6443 --token x".toList ++
        " --control-plane --certificate-key ".toList ++ "KEY".toList) ∧
    (AddNode (exampleWorld (24 * Hour)) ⟨"n1,n2".toList, "master".toList⟩ [] 0).state.joincmd_g =
      "kubeadm join 1.2.3.4:6443 --token x".toList :=
  have h := control_plane_join_command (exampleWorld (24 * Hour))
    ⟨"n1,n2".toList, "master".toList⟩ [] 0
    ⟨"kubeadm join 1.2.3.4:6443 --token x".toList, 24 * Hour,
      [⟨tokenCreate "admin".toList, true,
        "admin:\n    kubeadm join 1.2.3.4:6443 --token x \n".toList⟩],
      [⟨true, "Generate new token ...".toList⟩], 0⟩
    "l0:\nl1\nKEY\n".toList "KEY".toList "n1: True\nn2: True\nn3: False\n".toList
    (by decide) (by rfl) (by rfl) (by decide) (by rfl)
  ⟨h.1.elim fun p hp => hp.elim fun s hs => ⟨p, s, hs.1, hs.2.2.1⟩, h.2.2.1⟩

/-- C5: when the preparation gives the plan `p`, the goroutines run one after
another leave one log for each node of the node list, in order; after
`wg.Wait()` the counter `failed` is the number of nodes whose log has a failed
command, however long that log is; the event with `Success = false` and the
message `An error occured during adding Node(s)` is sent once, as the last
event, when that number is positive and not at all when it is zero. -/
theorem aggregate_outcome (w : World) (req : AddNodeRequest) (joincmd_g : Str)
    (token_create_time : Int) (p : Plan) (s : State)
    (hp : prepare w req (start joincmd_g token_create_time) = .next p s) :
    ∃ segs : List (List Entry), List.Forall₂ (NodeLog p) p.nodelist segs ∧
      (AddNode w req joincmd_g token_create_time).state.trace = s.trace ++ segs.flatten ∧
      (AddNode w req joincmd_g token_create_time).state.failed =
        (segs.filter (fun seg => seg.any (fun e => !e.success))).length ∧
      (AddNode w req joincmd_g token_create_time).state.events.count
          ⟨false, "An error occured during adding Node(s)".toList⟩ =
        (if 0 < (AddNode w req joincmd_g token_create_time).state.failed then 1 else 0) ∧
      (0 < (AddNode w req joincmd_g token_create_time).state.failed →
        (AddNode w req joincmd_g token_create_time).state.events.getLast? =
          some ⟨false, "An error occured during adding Node(s)".toList⟩) := by
  have hglobal : globalError = ⟨false, "An error occured during adding Node(s)".toList⟩ := rfl
  rw [← hglobal]
  rcases AddNode_cases w req joincmd_g token_create_time with
    ⟨err, s1, hp1, _⟩ | ⟨s1, hp1, _⟩ |
    ⟨p1, s1, segs, evs, err, hp1, hlog, _, htr, hfail, hev, hcolon, _⟩
  · rw [hp] at hp1
    cases hp1
  · rw [hp] at hp1
    cases hp1
  · rw [hp] at hp1
    cases hp1
    have hs : s.failed = 0 ∧ s.events.count globalError = 0 := by
      rcases prepare_next w req _ p s hp with
        ⟨s1, s2, (⟨_, rfl⟩ | ⟨_, o1, _, rfl⟩),
          (⟨_, rfl, _, _⟩ | ⟨_, o2, key, _, _, rfl, _, _⟩), out, _, _, _, rfl⟩
      all_goals
        refine ⟨rfl, ?_⟩
        simp [start, globalError, List.count_cons]
    have hevs : evs.count globalError = 0 := by
      rw [List.count_eq_zero]
      intro hmem
      have := hcolon _ hmem
      simp [globalError] at this
    rw [hs.1, Nat.zero_add] at hfail hev
    refine ⟨segs, hlog, htr, hfail, ?_, ?_⟩
    · rw [hev, hfail, List.count_append, List.count_append, hs.2, hevs]
      split <;> simp
    · intro hpos
      rw [hev]
      rw [hfail] at hpos
      simp [hpos]

/-- C5, witness: with the answers of `exampleWorld`, `n1` is added and `n2` fails at its
third step: one failed node, one final error event. -/
theorem aggregate_outcome_witness :
    (AddNode (exampleWorld 0) ⟨"n1,n2".toList, []⟩ "cached".toList 0).state.failed = 1 ∧
    (AddNode (exampleWorld 0) ⟨"n1,n2".toList, []⟩ "cached".toList 0).state.events.count
      ⟨false, "An error occured during adding Node(s)".toList⟩ = 1 := by
  have hp : prepare (exampleWorld 0) ⟨"n1,n2".toList, []⟩ (start "cached".toList 0) =
      .next ⟨["n1".toList, "n2".toList], "cached".toList, "worker".toList, []⟩
        ⟨"cached".toList, 0,
          [⟨pingCall "n1,n2".toList, true, "n1: True\nn2: True\nn3: False\n".toList⟩], [], 0⟩ := by
    rfl
  obtain ⟨segs, _, _, _, hcount, _⟩ :=
    aggregate_outcome (exampleWorld 0) ⟨"n1,n2".toList, []⟩ "cached".toList 0 _ _ hp
  have hf : (AddNode (exampleWorld 0) ⟨"n1,n2".toList, []⟩ "cached".toList 0).state.failed = 1 := by
    decide
  refine ⟨hf, ?_⟩
  rw [hcount, hf]
  rfl

/-- C6: when the token-creation command, the certificate upload or the ping
fails in a call of `AddNode`, every command of the call is one of these three
and no command of any node is issued, no node is counted as failed, the call
returns, exactly one event has `Success = false`, it carries the message of
the failed command and is the last event; a failed token creation leaves
`joincmd_g` and `token_create_time` as they were. -/
theorem fatal_errors_abort (w : World) (req : AddNodeRequest) (joincmd_g : Str)
    (token_create_time : Int) (msg : Str)
    (h : ⟨tokenCreate (master_salt w), false, msg⟩ ∈
          (AddNode w req joincmd_g token_create_time).state.trace ∨
        ⟨uploadCertsCall (master_salt w), false, msg⟩ ∈
          (AddNode w req joincmd_g token_create_time).state.trace ∨
        ⟨pingCall req.NodeNames, false, msg⟩ ∈
          (AddNode w req joincmd_g token_create_time).state.trace) :
    (∀ e ∈ (AddNode w req joincmd_g token_create_time).state.trace,
      e.call = tokenCreate (master_salt w) ∨ e.call = uploadCertsCall (master_salt w) ∨
        e.call = pingCall req.NodeNames) ∧
    (∀ (p : Plan) (node : Str), ∀ c ∈ stepCalls p node,
      ∀ e ∈ (AddNode w req joincmd_g token_create_time).state.trace, e.call ≠ c) ∧
    (AddNode w req joincmd_g token_create_time).state.failed = 0 ∧
    (∃ err, (AddNode w req joincmd_g token_create_time).outcome = .returned err) ∧
    (AddNode w req joincmd_g token_create_time).state.events.filter (fun e => !e.Success) =
      [⟨false, msg⟩] ∧
    (AddNode w req joincmd_g token_create_time).state.events.getLast? = some ⟨false, msg⟩ ∧
    (⟨tokenCreate (master_salt w), false, msg⟩ ∈
        (AddNode w req joincmd_g token_create_time).state.trace →
      (AddNode w req joincmd_g token_create_time).state.joincmd_g = joincmd_g ∧
      (AddNode w req joincmd_g token_create_time).state.token_create_time =
        token_create_time) := by
  have hsteps : (∀ e ∈ (AddNode w req joincmd_g token_create_time).state.trace,
      e.call = tokenCreate (master_salt w) ∨ e.call = uploadCertsCall (master_salt w) ∨
        e.call = pingCall req.NodeNames) →
      ∀ (p : Plan) (node : Str), ∀ c ∈ stepCalls p node,
        ∀ e ∈ (AddNode w req joincmd_g token_create_time).state.trace, e.call ≠ c := by
    intro hall p node c hc e he heq
    rcases hall e he with h1 | h1 | h1
    · exact (stepCalls_not_prepare p node c hc).1 _ (heq.symm.trans h1)
    · exact (stepCalls_not_prepare p node c hc).2.1 _ (heq.symm.trans h1)
    · exact stepCalls_ne_pingCall p node c hc _ (heq.symm.trans h1)
  have n1 := pingCall_ne_tokenCreate req.NodeNames (master_salt w)
  have n2 := pingCall_ne_uploadCertsCall req.NodeNames (master_salt w)
  have n3 := uploadCertsCall_ne_tokenCreate (master_salt w) (master_salt w)
  have n4 := n1.symm
  have n5 := n2.symm
  have n6 := n3.symm
  rcases AddNode_cases w req joincmd_g token_create_time with
    ⟨err, s, hp, hA⟩ | ⟨s, hp, hA⟩ |
    ⟨p, s, segs, evs, err, hp, hlog, _, htr, _⟩
  · rw [hA] at h hsteps ⊢
    rcases prepare_ret w req _ err s hp with ⟨_, out, _, rfl⟩ |
      ⟨s1, (⟨_, rfl⟩ | ⟨_, o1, _, rfl⟩), _, out, _, rfl⟩ |
      ⟨s1, s2, jc, lb, (⟨_, rfl⟩ | ⟨_, o1, _, rfl⟩),
        (⟨_, rfl, _, _⟩ | ⟨_, o2, key, _, _, rfl, _, _⟩), out, _, rfl⟩
    all_goals
      have hmsg : msg = out := by
        simp only [start, List.nil_append, List.cons_append, List.mem_cons, List.mem_singleton,
          List.not_mem_nil, or_false, Entry.mk.injEq, n1, n2, n3, n4, n5, n6, false_and,
          and_false, true_and, false_or, or_self, Bool.false_eq_true, reduceCtorEq] at h
        exact h
      subst hmsg
      refine ⟨?_, ?_, rfl, ⟨_, rfl⟩, by simp [start], by simp [start], fun htok => ?_⟩
      · intro e he
        simp only [start, List.nil_append, List.cons_append, List.mem_cons, List.mem_singleton,
          List.not_mem_nil, or_false] at he
        rcases he with rfl | rfl | rfl <;> simp
      · refine hsteps ?_
        intro e he
        simp only [start, List.nil_append, List.cons_append, List.mem_cons, List.mem_singleton,
          List.not_mem_nil, or_false] at he
        rcases he with rfl | rfl | rfl <;> simp
      · first
          | exact ⟨rfl, rfl⟩
          | (exfalso
             simp only [start, List.nil_append, List.cons_append, List.mem_cons,
               List.mem_singleton, List.not_mem_nil, or_false, Entry.mk.injEq, n1, n2, n3, n4,
               n5, n6, false_and, and_false, true_and, false_or, or_self, Bool.false_eq_true,
               reduceCtorEq] at htok)
  · rw [hA] at h
    exfalso
    rcases prepare_panic w req _ s hp with
      ⟨s1, (⟨_, rfl⟩ | ⟨_, o1, _, rfl⟩), _, out, _, _, rfl⟩
    all_goals
      simp only [start, List.nil_append, List.cons_append, List.mem_cons, List.mem_singleton,
        List.not_mem_nil, or_false, Entry.mk.injEq, n1, n2, n3, n4, n5, n6, false_and,
        and_false, true_and, false_or, or_self, Bool.false_eq_true, reduceCtorEq] at h
  · exfalso
    rw [htr] at h
    have hseg : ∀ e ∈ segs.flatten, e.call ≠ tokenCreate (master_salt w) ∧
        e.call ≠ uploadCertsCall (master_salt w) ∧ e.call ≠ pingCall req.NodeNames := by
      intro e he
      obtain ⟨node, _, hc⟩ := mem_nodeLogs p p.nodelist segs hlog e he
      exact ⟨(stepCalls_not_prepare p node _ hc).1 _, (stepCalls_not_prepare p node _ hc).2.1 _,
        stepCalls_ne_pingCall p node _ hc _⟩
    simp only [List.mem_append] at h
    rcases h with (h | h) | (h | h) | (h | h)
    rotate_left
    · exact (hseg _ h).1 rfl
    rotate_left
    · exact (hseg _ h).2.1 rfl
    rotate_left
    · exact (hseg _ h).2.2 rfl
    all_goals
      rcases prepare_next w req _ p s hp with
        ⟨s1, s2, (⟨_, rfl⟩ | ⟨_, o1, _, rfl⟩),
          (⟨_, rfl, _, _⟩ | ⟨_, o2, key, _, _, rfl, _, _⟩), out, _, _, _, rfl⟩
      all_goals
        simp only [start, List.nil_append, List.cons_append, List.mem_cons, List.mem_singleton,
          List.not_mem_nil, or_false, Entry.mk.injEq, n1, n2, n3, n4, n5, n6, false_and,
          and_false, true_and, false_or, or_self, Bool.false_eq_true, reduceCtorEq] at h

/-- C6, witness: the ping fails with the message `no minions`: one failure event, the
last one. -/
theorem fatal_errors_abort_witness :
    (AddNode ⟨fun _ _ => [], fun _ _ => (false, "no minions".toList), fun _ _ => false, 0, 0⟩
      ⟨"n1".toList, []⟩ [] 0).state.events.getLast? = some ⟨false, "no minions".toList⟩ :=
  (fatal_errors_abort ⟨fun _ _ => [], fun _ _ => (false, "no minions".toList),
      fun _ _ => false, 0, 0⟩ ⟨"n1".toList, []⟩ [] 0 "no minions".toList
      (Or.inr (Or.inr (by decide)))).2.2.2.2.2.1

/-- C7: for a node whose steps 1 to 7 succeed, the command
`salt --module-executors='direct_call' <loadbalancer_salt> cmd.run
"haproxycfg server add <node>"` is issued, on the configured load balancer,
exactly when the request is for a master and `loadbalancer_salt` is not
empty, as the command after step 7; otherwise the goroutine issues the seven
commands only and sends the events `adding node...`, `joining cluster...` and
`node successful added` only. -/
theorem haproxy_registration (w : World) (req : AddNodeRequest) (s0 : State) (p : Plan)
    (s : State) (node : Str) (st : State)
    (hp : prepare w req s0 = .next p s)
    (h7 : ∀ e ∈ replay w st.trace ((stepCalls p node).take 7), e.success = true) :
    (Call.ExecuteCmd "salt".toList
        [directCall, w.Read_Cfg "control-plane.conf".toList "loadbalancer_salt".toList,
          "cmd.run".toList, "haproxycfg server add ".toList ++ node] ∈
        ((goroutine w p node st).trace.drop st.trace.length).map Entry.call ↔
      (EqualFold req.Type_ "master".toList = true ∧
        (w.Read_Cfg "control-plane.conf".toList "loadbalancer_salt".toList).length > 0)) ∧
    ((EqualFold req.Type_ "master".toList = true ∧
        (w.Read_Cfg "control-plane.conf".toList "loadbalancer_salt".toList).length > 0) →
      ∃ ok out, (goroutine w p node st).trace =
        st.trace ++ replay w st.trace ((stepCalls p node).take 7) ++
          [⟨.ExecuteCmd "salt".toList
              [directCall, w.Read_Cfg "control-plane.conf".toList "loadbalancer_salt".toList,
                "cmd.run".toList, "haproxycfg server add ".toList ++ node],
            ok, out⟩]) ∧
    (¬ (EqualFold req.Type_ "master".toList = true ∧
        (w.Read_Cfg "control-plane.conf".toList "loadbalancer_salt".toList).length > 0) →
      (goroutine w p node st).trace =
        st.trace ++ replay w st.trace ((stepCalls p node).take 7) ∧
      (goroutine w p node st).events =
        st.events ++ [⟨true, node ++ ": adding node...".toList⟩,
          ⟨true, node ++ ": joining cluster...".toList⟩,
          ⟨true, node ++ ": node successful added".toList⟩]) := by
  have hcmd : haproxyAdd (w.Read_Cfg "control-plane.conf".toList "loadbalancer_salt".toList)
      node = .ExecuteCmd "salt".toList
        [directCall, w.Read_Cfg "control-plane.conf".toList "loadbalancer_salt".toList,
          "cmd.run".toList, "haproxycfg server add ".toList ++ node] := rfl
  rw [← hcmd]
  have hsalt := prepare_haproxy_salt w req s0 p s hp
  obtain ⟨g1, _⟩ := goroutine_spec w p node st
  have hseven := stepCalls_take_seven p node
  have hnot7 : haproxyAdd (w.Read_Cfg "control-plane.conf".toList "loadbalancer_salt".toList)
      node ∉ (stepCalls p node).take 7 := by
    rw [hseven]
    simp [haproxyAdd, startCrio, enableCrio, startKubelet, enableKubelet, runJoin, appendGrain,
      setRebootMethod]
    intro _ heq
    have := congrArg List.head? heq
    rw [rebootMethodScript_head] at this
    simp at this
  by_cases hcond : EqualFold req.Type_ "master".toList = true ∧
      (w.Read_Cfg "control-plane.conf".toList "loadbalancer_salt".toList).length > 0
  · have hs : p.haproxy_salt =
        w.Read_Cfg "control-plane.conf".toList "loadbalancer_salt".toList := by
      rw [hsalt, hcond.1]; rfl
    have hsteps : stepCalls p node = (stepCalls p node).take 7 ++
        [haproxyAdd (w.Read_Cfg "control-plane.conf".toList "loadbalancer_salt".toList)
          node] := by
      rw [hseven]
      unfold stepCalls
      rw [hs, if_pos hcond.2]
    have htrace : (goroutine w p node st).trace =
        st.trace ++ replay w st.trace ((stepCalls p node).take 7) ++
          issued w (st.trace ++ replay w st.trace ((stepCalls p node).take 7))
            [haproxyAdd (w.Read_Cfg "control-plane.conf".toList "loadbalancer_salt".toList)
              node] := by
      rw [g1, List.append_assoc]
      congr 1
      conv_lhs => rw [hsteps]
      exact issued_append_of_success w _ _ _ h7
    rw [issued_singleton] at htrace
    refine ⟨⟨fun _ => hcond, fun _ => ?_⟩, fun _ => ⟨_, _, htrace⟩, fun hn => absurd hcond hn⟩
    rw [htrace, List.append_assoc, List.drop_left]
    simp
  · have hs : p.haproxy_salt = [] := by
      rw [hsalt]
      by_cases hm : EqualFold req.Type_ "master".toList = true
      · rw [hm, if_pos rfl]
        have : ¬ (w.Read_Cfg "control-plane.conf".toList "loadbalancer_salt".toList).length > 0 :=
          fun h => hcond ⟨hm, h⟩
        exact List.length_eq_zero.1 (by omega)
      · rw [if_neg hm]
    have hsteps : stepCalls p node = (stepCalls p node).take 7 := by
      rw [hseven]
      unfold stepCalls
      rw [hs]
      rfl
    have hiss : issued w st.trace (stepCalls p node) =
        replay w st.trace ((stepCalls p node).take 7) := by
      conv_lhs => rw [hsteps]
      exact issued_of_success w _ _ h7
    have htrace : (goroutine w p node st).trace =
        st.trace ++ replay w st.trace ((stepCalls p node).take 7) := by
      rw [g1, hiss]
    refine ⟨⟨fun hmem => ?_, fun h => absurd h hcond⟩, fun h => absurd h hcond,
      fun _ => ⟨htrace, ?_⟩⟩
    · rw [htrace, List.drop_left, replay_calls] at hmem
      exact absurd hmem hnot7
    · have h7s : ∀ e ∈ replay w st.trace ((script p node).map Prod.snd), e.success = true := by
        rw [script_calls, hsteps]
        exact h7
      obtain ⟨_, r2, _⟩ := runSteps_spec w node (script p node) st
      have hok : (runSteps w node (script p node) st).1 = true := by
        rw [r2, script_calls, hiss, List.all_eq_true]
        exact h7
      have hev := runSteps_events_of_success w node (script p node) st h7s
      rw [goroutine_eq_runSteps]
      cases hr : runSteps w node (script p node) st with
      | mk ok s1 =>
        rw [hr] at hok hev
        simp only at hok hev
        subst hok
        simp only [Send, hev]
        simp [script, hs]

/-- C7, witness: in `exampleWorld` a worker request sends the three notices for `n1` and
nothing else, and a master request runs `haproxycfg server add n1` on the load
balancer `lb`. -/
theorem haproxy_registration_witness :
    (goroutine (exampleWorld 0) ⟨["n1".toList, "n2".toList], "cached".toList, "worker".toList, []⟩
        "n1".toList
        ⟨"cached".toList, 0,
          [⟨pingCall "n1,n2".toList, true, "n1: True\nn2: True\nn3: False\n".toList⟩], [],
          0⟩).events =
      [⟨true, "n1: adding node...".toList⟩, ⟨true, "n1: joining cluster...".toList⟩,
       ⟨true, "n1: node successful added".toList⟩] ∧
    Call.ExecuteCmd "salt".toList
        [directCall, "lb".toList, "cmd.run".toList, "haproxycfg server add n1".toList] ∈
      ((goroutine (exampleWorld 0)
        ⟨["n1".toList, "n2".toList],
          "cached --control-plane --certificate-key KEY".toList, "master".toList, "lb".toList⟩
        "n1".toList
        ⟨"cached".toList, 0,
          [⟨uploadCertsCall "admin".toList, true, "l0:\nl1\nKEY\n".toList⟩,
           ⟨pingCall "n1,n2".toList, true, "n1: True\nn2: True\nn3: False\n".toList⟩],
          [⟨true, "Upload certificates ...".toList⟩], 0⟩).trace.drop 2).map Entry.call :=
  ⟨((haproxy_registration (exampleWorld 0) ⟨"n1,n2".toList, []⟩ (start "cached".toList 0)
      ⟨["n1".toList, "n2".toList], "cached".toList, "worker".toList, []⟩
      ⟨"cached".toList, 0,
        [⟨pingCall "n1,n2".toList, true, "n1: True\nn2: True\nn3: False\n".toList⟩], [], 0⟩
      "n1".toList
      ⟨"cached".toList, 0,
        [⟨pingCall "n1,n2".toList, true, "n1: True\nn2: True\nn3: False\n".toList⟩], [], 0⟩
      (by rfl) (by decide)).2.2 (by decide)).2,
   (haproxy_registration (exampleWorld 0) ⟨"n1,n2".toList, "master".toList⟩
      (start "cached".toList 0)
      ⟨["n1".toList, "n2".toList],
        "cached --control-plane --certificate-key KEY".toList, "master".toList, "lb".toList⟩
      ⟨"cached".toList, 0,
        [⟨uploadCertsCall "admin".toList, true, "l0:\nl1\nKEY\n".toList⟩,
         ⟨pingCall "n1,n2".toList, true, "n1: True\nn2: True\nn3: False\n".toList⟩],
        [⟨true, "Upload certificates ...".toList⟩], 0⟩
      "n1".toList
      ⟨"cached".toList, 0,
        [⟨uploadCertsCall "admin".toList, true, "l0:\nl1\nKEY\n".toList⟩,
         ⟨pingCall "n1,n2".toList, true, "n1: True\nn2: True\nn3: False\n".toList⟩],
        [⟨true, "Upload certificates ...".toList⟩], 0⟩
      (by rfl) (by decide)).1.2 (by decide)⟩

/-- C8: a node-name input with a comma and without `[` is pinged with the
explicit-list selector `-L`; an input with `[`, and an input without a comma,
is pinged as a single target expression without `-L`. In every call of
`AddNode` a command whose last argument is `test.ping` is this command, and
the command is issued unless the call ended earlier (token creation or
certificate upload failed, or the call panicked). -/
theorem pingCall_addressing (w : World) (req : AddNodeRequest) (joincmd_g : Str)
    (token_create_time : Int) :
    ((',' ∈ req.NodeNames ∧ '[' ∉ req.NodeNames) →
      pingCall req.NodeNames = .ExecuteCmd "salt".toList
        [directCall, "--out=txt".toList, "-L".toList, req.NodeNames, "test.ping".toList]) ∧
    (('[' ∈ req.NodeNames ∨ ',' ∉ req.NodeNames) →
      pingCall req.NodeNames = .ExecuteCmd "salt".toList
        [directCall, "--out=txt".toList, req.NodeNames, "test.ping".toList]) ∧
    (∀ e ∈ (AddNode w req joincmd_g token_create_time).state.trace, ∀ cmd args,
      e.call = .ExecuteCmd cmd args → args.getLast? = some "test.ping".toList →
        e.call = pingCall req.NodeNames) ∧
    ((∃ e ∈ (AddNode w req joincmd_g token_create_time).state.trace,
        e.call = pingCall req.NodeNames) ∨
      (∃ out, ⟨tokenCreate (master_salt w), false, out⟩ ∈
        (AddNode w req joincmd_g token_create_time).state.trace) ∨
      (∃ out, ⟨uploadCertsCall (master_salt w), false, out⟩ ∈
        (AddNode w req joincmd_g token_create_time).state.trace) ∨
      (AddNode w req joincmd_g token_create_time).outcome = .panicked) := by
  refine ⟨?_, ?_, ?_, ?_⟩
  · rintro ⟨h1, h2⟩
    simp [pingCall, Index, h1, h2]
  · intro h
    unfold pingCall Index
    rcases h with h | h
    · simp [h]
    · simp [h]
  · intro e he cmd args hcall hlast
    rcases AddNode_cases w req joincmd_g token_create_time with
      ⟨err, s, hp, hA⟩ | ⟨s, hp, hA⟩ | ⟨p, s, segs, evs, err, hp, hlog, _, htr, _⟩
    · rw [hA] at he
      rcases prepare_ret w req _ err s hp with ⟨_, out, _, rfl⟩ |
        ⟨s1, (⟨_, rfl⟩ | ⟨_, o1, _, rfl⟩), _, out, _, rfl⟩ |
        ⟨s1, s2, jc, lb, (⟨_, rfl⟩ | ⟨_, o1, _, rfl⟩),
          (⟨_, rfl, _, _⟩ | ⟨_, o2, key, _, _, rfl, _, _⟩), out, _, rfl⟩
      all_goals
        simp only [start, List.nil_append, List.cons_append, List.mem_cons, List.mem_singleton,
          List.not_mem_nil, or_false, false_or] at he
        rcases he with rfl | rfl | rfl <;>
          first
            | rfl
            | (exfalso; simp [tokenCreate, uploadCertsCall] at hcall)
    · rw [hA] at he
      rcases prepare_panic w req _ s hp with
        ⟨s1, (⟨_, rfl⟩ | ⟨_, o1, _, rfl⟩), _, out, _, _, rfl⟩
      all_goals
        simp only [start, List.nil_append, List.cons_append, List.mem_cons, List.mem_singleton,
          List.not_mem_nil, or_false, false_or] at he
        rcases he with rfl | rfl <;>
          (exfalso; simp [tokenCreate, uploadCertsCall] at hcall)
    · rw [htr, List.mem_append] at he
      rcases he with he | he
      · rcases prepare_next w req _ p s hp with
          ⟨s1, s2, (⟨_, rfl⟩ | ⟨_, o1, _, rfl⟩),
            (⟨_, rfl, _, _⟩ | ⟨_, o2, key, _, _, rfl, _, _⟩), out, _, _, _, rfl⟩
        all_goals
          simp only [start, List.nil_append, List.cons_append, List.mem_cons,
            List.mem_singleton, List.not_mem_nil, or_false, false_or] at he
          rcases he with rfl | rfl | rfl <;>
            first
              | rfl
              | (exfalso; simp [tokenCreate, uploadCertsCall] at hcall)
      · obtain ⟨node, _, hc⟩ := mem_nodeLogs p p.nodelist segs hlog e he
        exact ((stepCalls_not_prepare p node _ hc).2.2 cmd args hcall hlast).elim
  · rcases AddNode_cases w req joincmd_g token_create_time with
      ⟨err, s, hp, hA⟩ | ⟨s, hp, hA⟩ | ⟨p, s, segs, evs, err, hp, hlog, _, htr, _⟩
    · rw [hA]
      rcases prepare_ret w req _ err s hp with ⟨_, out, _, rfl⟩ |
        ⟨s1, _, _, out, _, rfl⟩ | ⟨s1, s2, jc, lb, _, _, out, _, rfl⟩
      · exact Or.inr (Or.inl ⟨out, by simp [start]⟩)
      · exact Or.inr (Or.inr (Or.inl ⟨out, by simp⟩))
      · exact Or.inl ⟨⟨pingCall req.NodeNames, false, out⟩, by simp, rfl⟩
    · rw [hA]
      exact Or.inr (Or.inr (Or.inr rfl))
    · rw [htr]
      obtain ⟨s1, s2, _, _, out, _, _, _, rfl⟩ := prepare_next w req _ p s hp
      exact Or.inl ⟨⟨pingCall req.NodeNames, true, out⟩, by simp, rfl⟩

/-- C8, witness: `n1,n2` is pinged with `-L`, `n[1,2]` without, in a call that reaches
the ping. -/
theorem pingCall_addressing_witness :
    pingCall "n1,n2".toList = .ExecuteCmd "salt".toList
        [directCall, "--out=txt".toList, "-L".toList, "n1,n2".toList, "test.ping".toList] ∧
    pingCall "n[1,2]".toList = .ExecuteCmd "salt".toList
        [directCall, "--out=txt".toList, "n[1,2]".toList, "test.ping".toList] :=
  ⟨(pingCall_addressing ⟨fun _ _ => [], fun _ _ => (true, []), fun _ _ => false, 0, 0⟩
      ⟨"n1,n2".toList, []⟩ [] 0).1 (by decide),
   (pingCall_addressing ⟨fun _ _ => [], fun _ _ => (true, []), fun _ _ => false, 0, 0⟩
      ⟨"n[1,2]".toList, []⟩ [] 0).2.1 (by decide)⟩

/-- C9, as amended: after a successful refresh the cached join command is
`parseToken` of the output. When `master` is configured (the command went
through `salt`) it has no line break and no leading or trailing white space,
and it is the output with its line breaks removed, cut after the first colon
and trimmed: an output `"<minion>:\n    <cmd>\n"` with a minion name without
colon and a one-line `cmd` is cached as `cmd` trimmed, colons of `cmd` kept.
When `master` is empty the cached command is the output without one final
line break. -/
theorem token_parsing (w : World) (req : AddNodeRequest) (joincmd_g : Str)
    (token_create_time : Int) (token : Str)
    (hst : olderThan23Hours (Sub w.sinceNow token_create_time) = true)
    (hrun : w.run [] (tokenCreate (master_salt w)) = (true, token)) :
    (AddNode w req joincmd_g token_create_time).state.joincmd_g =
      parseToken (master_salt w) token ∧
    (master_salt w ≠ [] →
      '\n' ∉ parseToken (master_salt w) token ∧
      (∀ c, (parseToken (master_salt w) token).head? = some c → isSpace c = false) ∧
      (∀ c, (parseToken (master_salt w) token).getLast? = some c → isSpace c = false) ∧
      (∀ minion rest : Str, ':' ∉ minion → token = minion ++ ':' :: rest →
        parseToken (master_salt w) token = TrimSpace (Replace rest '\n' [])) ∧
      (∀ minion cmd : Str, ':' ∉ minion → '\n' ∉ cmd →
        token = minion ++ ":\n    ".toList ++ cmd ++ "\n".toList →
        parseToken (master_salt w) token = TrimSpace cmd)) ∧
    (master_salt w = [] →
      parseToken (master_salt w) token = TrimSuffix token "\n".toList) := by
  have hnot : ¬ olderThan23Hours
      (Sub w.sinceNow (start joincmd_g token_create_time).token_create_time) = false := by
    simp [start, hst]
  have hrun2 : ∀ b o, w.run (start joincmd_g token_create_time).trace
      (tokenCreate (master_salt w)) = (b, o) → b = true ∧ o = token := by
    intro b o h
    simp only [start] at h
    rw [hrun] at h
    cases h
    exact ⟨rfl, rfl⟩
  refine ⟨?_, fun hm => ?_, fun hm => ?_⟩
  · rcases AddNode_cases w req joincmd_g token_create_time with
      ⟨err, s, hp, hA⟩ | ⟨s, hp, hA⟩ |
      ⟨p, s, segs, evs, err, hp, _, _, _, _, _, _, hjc, _⟩
    · rw [hA]
      rcases prepare_ret w req _ err s hp with ⟨_, out, hr, rfl⟩ |
        ⟨s1, (⟨hfr, rfl⟩ | ⟨_, o1, hr, rfl⟩), _, out, _, rfl⟩ |
        ⟨s1, s2, jc, lb, (⟨hfr, rfl⟩ | ⟨_, o1, hr, rfl⟩),
          (⟨_, rfl, _, _⟩ | ⟨_, o2, key, _, _, rfl, _, _⟩), out, _, rfl⟩
      all_goals first
        | exact absurd hfr hnot
        | exact absurd (hrun2 _ _ hr).1 Bool.false_ne_true
        | (rw [← (hrun2 _ _ hr).2])
    · rw [hA]
      rcases prepare_panic w req _ s hp with
        ⟨s1, (⟨hfr, rfl⟩ | ⟨_, o1, hr, rfl⟩), _, out, _, _, rfl⟩
      · exact absurd hfr hnot
      · rw [← (hrun2 _ _ hr).2]
    · rw [hjc]
      rcases prepare_next w req _ p s hp with
        ⟨s1, s2, (⟨hfr, rfl⟩ | ⟨_, o1, hr, rfl⟩),
          (⟨_, rfl, _, _⟩ | ⟨_, o2, key, _, _, rfl, _, _⟩), out, _, _, _, rfl⟩
      all_goals first
        | exact absurd hfr hnot
        | (rw [← (hrun2 _ _ hr).2])
  · have hform := parseToken_routed (master_salt w) token hm
    have hcut : ∀ minion rest : Str, ':' ∉ minion → token = minion ++ ':' :: rest →
        parseToken (master_salt w) token = TrimSpace (Replace rest '\n' []) := by
      intro minion rest hcolon htok
      rw [hform, htok, Replace_append]
      have hcons : Replace (':' :: rest) '\n' [] = ':' :: Replace rest '\n' [] := by
        simp [Replace]
      have hmin : ':' ∉ Replace minion '\n' [] := by
        rw [Replace_nil_eq_filter]
        intro hmem
        exact hcolon (List.mem_filter.1 hmem).1
      rw [hcons, Index_append_of_not_mem _ _ _ hmin]
      congr 1
      have : ((Replace minion '\n' []).length + 1 : Int).toNat =
          (Replace minion '\n' []).length + 1 := by omega
      rw [this, List.drop_append_eq_append_drop]
      simp
    refine ⟨?_, ?_, ?_, hcut, ?_⟩
    · rw [hform]
      intro hmem
      have h1 := TrimSpace_subset _ _ hmem
      have h2 := List.mem_of_mem_drop h1
      exact not_mem_Replace_nil _ _ h2
    · rw [hform]
      exact TrimSpace_head _
    · rw [hform]
      exact TrimSpace_getLast _
    · intro minion cmd hcolon hnl htok
      rw [hcut minion ("\n    ".toList ++ cmd ++ "\n".toList)
        hcolon (by rw [htok]; simp)]
      rw [Replace_append, Replace_append, Replace_of_not_mem cmd _ _ hnl]
      have h1 : Replace "\n    ".toList '\n' [] = "    ".toList := by decide
      have h2 : Replace "\n".toList '\n' [] = [] := by decide
      rw [h1, h2, List.append_nil]
      exact TrimSpace_append_spaces _ _ (by decide)
  · unfold parseToken
    simp [hm]

/-- C9, witness: through `salt` on the minion `admin`, the cached command is the printed
command, trimmed, with the colon of `1.2.3.4:6443`. -/
theorem token_parsing_witness :
    (AddNode (exampleWorld (24 * Hour)) ⟨"n1,n2".toList, []⟩ [] 0).state.joincmd_g =
      parseToken "admin".toList "admin:\n    kubeadm join 1.2.3.4:6443 --token x \n".toList ∧
    parseToken "admin".toList "admin:\n    kubeadm join 1.2.3.4:6443 --token x \n".toList =
      "kubeadm join 1.2.3.4:6443 --token x".toList :=
  ⟨(token_parsing (exampleWorld (24 * Hour)) ⟨"n1,n2".toList, []⟩ [] 0
      "admin:\n    kubeadm join 1.2.3.4:6443 --token x \n".toList (by decide) (by rfl)).1,
   by decide⟩

/-- C9, as stated, fails when no `master` is configured: the output
`"kubeadm join 1.2.3.4:6443 --token x \n"` is cached with its trailing blank,
and the output `" a\n\n"` is cached with a leading blank and a line break. -/
theorem token_untrimmed_when_direct :
    (AddNode directWorld ⟨"n1".toList, []⟩ [] 0).state.joincmd_g =
      "kubeadm join 1.2.3.4:6443 --token x ".toList ∧
    (AddNode directWorld ⟨"n1".toList, []⟩ [] 0).state.joincmd_g.getLast? = some ' ' ∧
    isSpace ' ' = true ∧
    parseToken [] " a\n\n".toList = " a\n".toList := by
  decide

/-- C10 fails on the code: for a master request whose upload succeeds with an
empty output, `cert_key[2]` is out of range and the call panics; so it does for
an output of one line. -/
theorem certificate_key_index_out_of_range :
    (AddNode ⟨fun _ _ => [], fun _ _ => (true, []), fun _ _ => false, 0, 0⟩
      ⟨"n1".toList, "master".toList⟩ "cached".toList 0).outcome = .panicked ∧
    (certKeyLines []).length = 1 ∧
    (AddNode ⟨fun _ _ => [], fun _ _ => (true, "one line".toList), fun _ _ => false, 0, 0⟩
      ⟨"n1".toList, "master".toList⟩ "cached".toList 0).outcome = .panicked := by
  decide

end Kubeadm
